import Mathlib

/-! mani-go: the batch pipeline.

A shallow embedding of the batch-fan-out proxy (`server.go`, `req_reader.go`,
`res_writer.go`, `models.go`) and theorems about it.

Modelling conventions.

* Go `string` and `[]byte` values are `Str = List Char`, one list element per
  byte.  Every string operation the program uses (`HasPrefix`, `TrimPrefix`,
  `Split` on `;`, `Trim` of spaces, concatenation) acts element by element, so
  the theorems hold for all byte strings.
* A nil slice is `none`, a non-nil slice `some`.
* Methods that mutate through a pointer return the new state; methods with a
  value receiver cannot change the caller's copy.
* Libraries outside the repository (`encoding/json`, `mime/multipart`,
  `net/textproto`, the `fasthttp` client and body writer) are parameters,
  collected in `Env`; `fasthttp.Request` is the record of what the program sets
  on it and of the header calls it makes.
* A Go panic is an explicit outcome.
-/

set_option autoImplicit false

deriving instance DecidableEq for Except

namespace Mani

/-- Go `string` / `[]byte`. -/
abbrev Str := List Char

/-! ## `strings` -/

/-- Go `strings.HasPrefix(s, p)`. -/
def HasPrefix (s p : Str) : Bool := p.isPrefixOf s

/-- Go `strings.TrimPrefix(s, p)`. -/
def TrimPrefix (s p : Str) : Str := if HasPrefix s p then s.drop p.length else s

/-- Go `strings.Trim(s, " ")`: leading and trailing spaces removed. -/
def Trim (s : Str) : Str := (s.dropWhile (· == ' ')).rdropWhile (· == ' ')

/-- Go `strings.Split(s, sep)` for a one-byte separator. -/
def Split (sep : Char) : Str → List Str
  | [] => [[]]
  | c :: cs =>
    if c = sep then [] :: Split sep cs
    else
      match Split sep cs with
      | [] => [[c]]
      | seg :: segs => (c :: seg) :: segs

/-! ## Literals of the program -/

/-- The literal `"boundary="`. -/
def boundaryParam : Str := "boundary=".toList

/-- The literal `"multipart/mixed"`. -/
def multipartMixed : Str := "multipart/mixed".toList

/-- The literal `"application/json"`. -/
def applicationJson : Str := "application/json".toList

/-- The message `"failed to parse multipart boundary"`. -/
def noBoundary : Str := "failed to parse multipart boundary".toList

/-! ## Errors -/

/-- Go `error` values as the handler distinguishes them: the sentinel `io.EOF`
and every other error, with its message. -/
inductive GoError
  | EOF
  | other (text : Str)
deriving DecidableEq, Repr

/-- Go `err.Error()`. -/
def GoError.Error : GoError → Str
  | .EOF => "EOF".toList
  | .other t => t

/-! ## `models.go` -/

/-- Go `ManiBodyEnum`. -/
structure ManiBodyEnum where
  Bytes : Option Str := none
  JSON : Option Str := none
deriving DecidableEq, Repr

/-- Go `ManiJSONResponse`. -/
structure ManiJSONResponse where
  StatusCode : Int
  Headers : List (List Str)
  Body : ManiBodyEnum
deriving DecidableEq, Repr

/-- Go `ManiJSONError`. -/
structure ManiJSONError where
  Detail : Str
deriving DecidableEq, Repr

/-- Go `ManiJSONResponseWrapper`; a nil pointer is `none`. -/
structure ManiJSONResponseWrapper where
  Error : Option ManiJSONError := none
  Response : Option ManiJSONResponse := none
deriving DecidableEq, Repr

/-! ## `fasthttp` buffers -/

/-- A call of the program that adds or sets a header of a `fasthttp.Request`:
`req.Header.Add(key, value)` or `req.Header.Set(key, value)`. -/
inductive HeaderCall
  | Add (key value : Str)
  | Set (key value : Str)
deriving DecidableEq, Repr

/-- The key a header call names. -/
def HeaderCall.key : HeaderCall → Str
  | .Add k _ => k
  | .Set k _ => k

/-- The value a header call gives. -/
def HeaderCall.value : HeaderCall → Str
  | .Add _ v => v
  | .Set _ v => v

/-- What the program does to a `fasthttp.Request` between `Reset` and the
outbound call: the method, URI and body it sets, and in `header` the calls
`Header.Add` and `Header.Set` it makes, in order.  Which headers the request
then carries is decided inside `fasthttp` (it rewrites the case of a key and
keeps some keys in fields of their own), not by the program. -/
structure Request where
  method : Str := []
  uri : Str := []
  header : List HeaderCall := []
  body : Str := []
deriving DecidableEq, Repr

/-- Go `req.Reset()`. -/
def Request.Reset (_ : Request) : Request := {}

/-- Go `req.Header.SetMethod(m)`. -/
def Request.SetMethod (req : Request) (m : Str) : Request := { req with method := m }

/-- Go `req.SetRequestURI(u)`. -/
def Request.SetRequestURI (req : Request) (u : Str) : Request := { req with uri := u }

/-- Go `req.Header.Add(k, v)`: the call is recorded. -/
def Request.Add (req : Request) (k v : Str) : Request :=
  { req with header := req.header ++ [.Add k v] }

/-- Go `req.Header.Set(k, v)`: the call is recorded. -/
def Request.Set (req : Request) (k v : Str) : Request :=
  { req with header := req.header ++ [.Set k v] }

/-- Go `req.SetBodyRaw(b)`. -/
def Request.SetBodyRaw (req : Request) (b : Str) : Request := { req with body := b }

/-- What the program reads from a `fasthttp.Response` filled by the outbound
client: `StatusCode()`, the pairs `Header.VisitAll` visits (in order),
`Header.ContentType()` and `Body()`. -/
structure Response where
  statusCode : Int
  header : List (Str × Str)
  contentType : Str
  body : Str
deriving DecidableEq, Repr

/-! ## `net/textproto` and `mime/multipart` values -/

/-- Go `textproto.MIMEHeader`, a `map[string][]string`, as an association list
(the order of the entries stands for the iteration order of the map). -/
abbrev MIMEHeader := List (Str × List Str)

/-- Go `MIMEHeader.Get(key)`: the first value stored under the canonical form
of `key`, or the empty string. -/
def MIMEHeader.Get (canon : Str → Str) (h : MIMEHeader) (key : Str) : Str :=
  match h.lookup (canon key) with
  | some (v :: _) => v
  | _ => []

/-- Go `MIMEHeader.Del(key)`. -/
def MIMEHeader.Del (canon : Str → Str) (h : MIMEHeader) (key : Str) : MIMEHeader :=
  h.filter (fun e => e.1 != canon key)

/-- Go `MIMEHeader.Set(key, value)`: the entry of the canonical key becomes the
single value. -/
def MIMEHeader.Set (canon : Str → Str) (h : MIMEHeader) (key value : Str) : MIMEHeader :=
  h.filter (fun e => e.1 != canon key) ++ [(canon key, [value])]

/-- One part of an inbound multipart stream as `NextRawPart` hands it out: its
header, and what `ioutil.ReadAll(part)` will return for its body. -/
structure Part where
  Header : MIMEHeader
  body : Except Str Str
deriving DecidableEq, Repr

/-- The state of a `*multipart.Reader`: the parts still to come and the error
`NextRawPart` returns once they are used up (`io.EOF` on a stream that ends
with its closing boundary). -/
structure multipartReader where
  parts : List Part
  final : GoError
deriving DecidableEq, Repr

/-! ## `req_reader.go` -/

/-- Go `urlHeader`. -/
def urlHeader : Str := "x-mani-url".toList

/-- Go `methodHeader`. -/
def methodHeader : Str := "x-mani-method".toList

/-- How a call of `readNextRequest` ends: it returns nil, returns an error, or
panics. -/
inductive ReadStatus
  | ok
  | failed (err : GoError)
  | panicked
deriving DecidableEq, Repr

/-- Go `multipartRequestReader`. -/
structure multipartRequestReader where
  mpr : multipartReader
deriving DecidableEq, Repr

/-- The loop `for k, v := range part.Header { for _, vv := range v { req.Header.Set(k, vv) } }`. -/
def copyPartHeaders : MIMEHeader → Request → Request
  | [], req => req
  | (k, v) :: rest, req => copyPartHeaders rest (v.foldl (fun r vv => r.Set k vv) req)

/-- Go `multipartRequestReader.readNextRequest`.  The `*multipart.Reader` is
shared through the pointer, so its new state is returned. -/
def multipartRequestReader.readNextRequest (canon : Str → Str) (r : multipartRequestReader)
    (req : Request) : multipartRequestReader × Request × ReadStatus :=
  match r.mpr.parts with
  | [] => (r, req, .failed r.mpr.final)
  | part :: rest =>
    let r1 : multipartRequestReader := { mpr := { r.mpr with parts := rest } }
    let url := MIMEHeader.Get canon part.Header urlHeader
    if url = [] then (r1, req, .failed (.other "part missing url header".toList))
    else
      let h1 := MIMEHeader.Del canon part.Header urlHeader
      let method := MIMEHeader.Get canon h1 methodHeader
      if method = [] then (r1, req, .failed (.other "part missing method header".toList))
      else
        let h2 := MIMEHeader.Del canon h1 methodHeader
        let req1 := copyPartHeaders h2 ((req.SetMethod method).SetRequestURI url)
        match part.body with
        | .error e => (r1, req1, .failed (.other e))
        | .ok body => (r1, req1.SetBodyRaw body, .ok)

/-- Go `jsonRequest`. -/
structure jsonRequest where
  URL : Str
  Method : Str
  Headers : List (List Str)
  Body : ManiBodyEnum
deriving DecidableEq, Repr

/-- Go `jsonRequestBody`. -/
structure jsonRequestBody where
  Requests : List jsonRequest
deriving DecidableEq, Repr

/-- Go `jsonRequestReader` after a successful `init` (the decoder is used by
`init` only). -/
structure jsonRequestReader where
  parsedBody : jsonRequestBody
  currentRequest : Nat
deriving DecidableEq, Repr

/-- The loop `for _, h := range rr.Headers { req.Header.Add(h[0], h[1]) }`.
The flag is true when an index expression went out of range; the request is
returned as it was at that moment. -/
def addHeaders : List (List Str) → Request → Request × Bool
  | [], req => (req, false)
  | h :: hs, req =>
    match h with
    | k :: v :: _ => addHeaders hs (req.Add k v)
    | _ => (req, true)

/-- Go `jsonRequestReader.readNextRequest`.  The deferred
`r.currentRequest++` runs on every path after the end-of-stream test, the
panicking one included. -/
def jsonRequestReader.readNextRequest (r : jsonRequestReader) (req : Request) :
    jsonRequestReader × Request × ReadStatus :=
  if h : r.currentRequest ≥ r.parsedBody.Requests.length then (r, req, .failed .EOF)
  else
    let r1 : jsonRequestReader := { r with currentRequest := r.currentRequest + 1 }
    let rr := r.parsedBody.Requests.get ⟨r.currentRequest, Nat.lt_of_not_ge h⟩
    match addHeaders rr.Headers ((req.SetMethod rr.Method).SetRequestURI rr.URL) with
    | (req1, true) => (r1, req1, .panicked)
    | (req1, false) =>
      match rr.Body.Bytes with
      | some b => (r1, req1.SetBodyRaw b, .ok)
      | none =>
        match rr.Body.JSON with
        | some j => (r1, req1.SetBodyRaw j, .ok)
        | none => (r1, req1, .ok)

/-- Go interface `requestReader` with its two implementations. -/
inductive requestReader
  | multipart (r : multipartRequestReader)
  | json (r : jsonRequestReader)
deriving DecidableEq, Repr

/-- Go `rr.readNextRequest(req)` through the interface. -/
def requestReader.readNextRequest (canon : Str → Str) (rr : requestReader) (req : Request) :
    requestReader × Request × ReadStatus :=
  match rr with
  | .multipart r =>
    match r.readNextRequest canon req with
    | (r1, req1, st) => (.multipart r1, req1, st)
  | .json r =>
    match r.readNextRequest req with
    | (r1, req1, st) => (.json r1, req1, st)

/-- The number of reads after which the reader has nothing left. -/
def requestReader.remaining : requestReader → Nat
  | .multipart r => r.mpr.parts.length
  | .json r => r.parsedBody.Requests.length - r.currentRequest

/-! ## The libraries around the program -/

/-- The behaviour of everything the program calls outside the repository. -/
structure Env where
  /-- Go `textproto.CanonicalMIMEHeaderKey`. -/
  canon : Str → Str
  /-- Go `json.NewDecoder(body).Decode(req)` on the inbound body: the decoded
  document or the decoder's error message. -/
  decode : Str → Except Str jsonRequestBody
  /-- Go `multipart.NewReader(body, boundary)`: the stream of parts it reads. -/
  newReader : Str → Str → multipartReader
  /-- The boundary `multipart.NewWriter` draws for the response. -/
  boundary : Str
  /-- The bytes `multipart.Writer.CreatePart` writes for a header: boundary
  line and header lines; the flag says whether a part was created before. -/
  partHead : Str → Bool → MIMEHeader → Str
  /-- The bytes `multipart.Writer.Close` writes. -/
  closing : Str → Str
  /-- Go `json.Marshal` on a response wrapper. -/
  marshal : ManiJSONResponseWrapper → Except Str Str
  /-- Go `s.httpClient.Do(req, res)`: for the call with the given number (from
  0) and request, the transport error or the filled response. -/
  client : Nat → Request → Except Str Response
  /-- The response body as an `io.Writer`: the error of the `Write` call with
  the given number (from 0), if it fails.  The writer `fasthttp` provides
  never fails. -/
  writeFault : Nat → Option Str

/-! ## `fasthttp.RequestCtx` -/

/-- The request context: what the handler reads of the inbound request, and
the response it builds.  `writes` counts the `Write` calls made on the body
writer. -/
structure RequestCtx where
  reqContentType : Str
  reqBody : Str
  statusCode : Int
  contentType : Str
  body : Str
  writes : Nat
deriving DecidableEq, Repr

/-- Go `ctx.SetStatusCode(c)`. -/
def RequestCtx.SetStatusCode (ctx : RequestCtx) (c : Int) : RequestCtx :=
  { ctx with statusCode := c }

/-- Go `ctx.SetBodyString(s)`: the body is replaced. -/
def RequestCtx.SetBodyString (ctx : RequestCtx) (s : Str) : RequestCtx :=
  { ctx with body := s }

/-- Go `ctx.Response.Header.SetContentType(t)`. -/
def RequestCtx.SetContentType (ctx : RequestCtx) (t : Str) : RequestCtx :=
  { ctx with contentType := t }

/-- Go `Write(p)` on `ctx.Response.BodyWriter()`: the bytes are appended to
the body unless the call fails. -/
def RequestCtx.Write (env : Env) (ctx : RequestCtx) (p : Str) : RequestCtx × Option Str :=
  match env.writeFault ctx.writes with
  | some e => ({ ctx with writes := ctx.writes + 1 }, some e)
  | none => ({ ctx with body := ctx.body ++ p, writes := ctx.writes + 1 }, none)

/-! ## `res_writer.go` -/

/-- Go `jsonHead`. -/
def jsonHead : Str := "\x7b\x22responses\x22:[".toList

/-- Go `jsonEnd`. -/
def jsonEnd : Str := "]\x7d".toList

/-- Go `comma`. -/
def comma : Str := ",".toList

/-- Go `jsonResponseWriter`; the `body` writer is the response body of the
context. -/
structure jsonResponseWriter where
  numResponses : Int
  responseNum : Int
deriving DecidableEq, Repr

/-- Go `jsonResponseWriter.Open`. -/
def jsonResponseWriter.Open (env : Env) (_ : jsonResponseWriter) (ctx : RequestCtx) :
    RequestCtx × Option Str :=
  ctx.Write env jsonHead

/-- Go `jsonResponseWriter.Close`. -/
def jsonResponseWriter.Close (env : Env) (_ : jsonResponseWriter) (ctx : RequestCtx) :
    RequestCtx × Option Str :=
  ctx.Write env jsonEnd

/-- The tail both write methods share: the separator is written when
`w.responseNum < w.numResponses-1`. -/
def jsonResponseWriter.writeComma (env : Env) (w : jsonResponseWriter) (ctx : RequestCtx) :
    RequestCtx × Option Str :=
  if w.responseNum < w.numResponses - 1 then ctx.Write env comma else (ctx, none)

/-- The wrapper `WriteNextResponse` marshals for a response. -/
def jsonResponseOf (res : Response) : ManiJSONResponseWrapper :=
  let h := res.header.map (fun kv => [kv.1, kv.2])
  let body : ManiBodyEnum :=
    if HasPrefix res.contentType applicationJson then { JSON := some res.body }
    else { Bytes := some res.body }
  { Response := some { StatusCode := res.statusCode, Headers := h, Body := body } }

/-- Go `jsonResponseWriter.WriteNextResponse`.  The receiver is a value: the
first component is the method's own copy of the writer when it returns, after
the deferred `w.responseNum++`; the caller's writer is not touched. -/
def jsonResponseWriter.WriteNextResponse (env : Env) (w : jsonResponseWriter) (res : Response)
    (ctx : RequestCtx) : jsonResponseWriter × RequestCtx × Option Str :=
  let w1 : jsonResponseWriter := { w with responseNum := w.responseNum + 1 }
  match env.marshal (jsonResponseOf res) with
  | .error e => (w1, ctx, some e)
  | .ok bts =>
    match ctx.Write env bts with
    | (ctx1, some e) => (w1, ctx1, some e)
    | (ctx1, none) =>
      match w.writeComma env ctx1 with
      | (ctx2, e) => (w1, ctx2, e)

/-- The wrapper `WriteNextError` marshals for an error. -/
def jsonErrorOf (err : Str) : ManiJSONResponseWrapper :=
  { Error := some { Detail := err } }

/-- Go `jsonResponseWriter.WriteNextError`.  It has no deferred increment. -/
def jsonResponseWriter.WriteNextError (env : Env) (w : jsonResponseWriter) (err : Str)
    (ctx : RequestCtx) : RequestCtx × Option Str :=
  match env.marshal (jsonErrorOf err) with
  | .error e => (ctx, some e)
  | .ok bts =>
    match ctx.Write env bts with
    | (ctx1, some e) => (ctx1, some e)
    | (ctx1, none) => w.writeComma env ctx1

/-- The state of a `*multipart.Writer`: its boundary and whether a part has
been created. -/
structure multipartWriter where
  boundary : Str
  lastpart : Bool
deriving DecidableEq, Repr

/-- Go `multipart.Writer.CreatePart(header)`. -/
def multipartWriter.CreatePart (env : Env) (mw : multipartWriter) (header : MIMEHeader)
    (ctx : RequestCtx) : multipartWriter × RequestCtx × Option Str :=
  match ctx.Write env (env.partHead mw.boundary mw.lastpart header) with
  | (ctx1, some e) => (mw, ctx1, some e)
  | (ctx1, none) => ({ mw with lastpart := true }, ctx1, none)

/-- Go `multipartResponseWriter`. -/
structure multipartResponseWriter where
  resWriter : multipartWriter
deriving DecidableEq, Repr

/-- Go `multipartResponseWriter.Open`. -/
def multipartResponseWriter.Open (_ : multipartResponseWriter) (ctx : RequestCtx) :
    RequestCtx × Option Str :=
  (ctx, none)

/-- The header `multipartResponseWriter.WriteNextResponse` builds with
`mimeHeader.Set` while visiting the response headers. -/
def mimeHeaderOf (canon : Str → Str) (res : Response) : MIMEHeader :=
  res.header.foldl (fun h kv => MIMEHeader.Set canon h kv.1 kv.2) []

/-- Go `multipartResponseWriter.WriteNextResponse`. -/
def multipartResponseWriter.WriteNextResponse (env : Env) (w : multipartResponseWriter)
    (res : Response) (ctx : RequestCtx) : multipartResponseWriter × RequestCtx × Option Str :=
  match w.resWriter.CreatePart env (mimeHeaderOf env.canon res) ctx with
  | (mw, ctx1, some e) => ({ resWriter := mw }, ctx1, some e)
  | (mw, ctx1, none) =>
    match ctx1.Write env res.body with
    | (ctx2, e) => ({ resWriter := mw }, ctx2, e)

/-- Go `multipartResponseWriter.WriteNextError`. -/
def multipartResponseWriter.WriteNextError (env : Env) (w : multipartResponseWriter)
    (err : Str) (ctx : RequestCtx) : multipartResponseWriter × RequestCtx × Option Str :=
  match w.resWriter.CreatePart env (MIMEHeader.Set env.canon [] "x-mani-error".toList err) ctx with
  | (mw, ctx1, some e) => ({ resWriter := mw }, ctx1, some e)
  | (mw, ctx1, none) =>
    match ctx1.Write env err with
    | (ctx2, e) => ({ resWriter := mw }, ctx2, e)

/-- Go `multipartResponseWriter.Close`. -/
def multipartResponseWriter.Close (env : Env) (w : multipartResponseWriter) (ctx : RequestCtx) :
    multipartResponseWriter × RequestCtx × Option Str :=
  match ctx.Write env (env.closing w.resWriter.boundary) with
  | (ctx1, some e) =>
    (w, ctx1, some e)
  | (ctx1, none) => ({ resWriter := { w.resWriter with lastpart := false } }, ctx1, none)

/-- Go interface `responseWriter` with its two implementations. -/
inductive responseWriter
  | multipart (w : multipartResponseWriter)
  | json (w : jsonResponseWriter)
deriving DecidableEq, Repr

/-- Go `resWriter.Open()` through the interface. -/
def responseWriter.Open (env : Env) (rw : responseWriter) (ctx : RequestCtx) :
    RequestCtx × Option Str :=
  match rw with
  | .multipart w => w.Open ctx
  | .json w => w.Open env ctx

/-- Go `resWriter.WriteNextResponse(res)` through the interface.  The
interface holds the JSON writer by value: the copy the method incremented is
dropped and the handler keeps the writer it had. -/
def responseWriter.WriteNextResponse (env : Env) (rw : responseWriter) (res : Response)
    (ctx : RequestCtx) : responseWriter × RequestCtx × Option Str :=
  match rw with
  | .multipart w =>
    match w.WriteNextResponse env res ctx with
    | (w1, ctx1, e) => (.multipart w1, ctx1, e)
  | .json w =>
    match w.WriteNextResponse env res ctx with
    | (_, ctx1, e) => (.json w, ctx1, e)

/-- Go `resWriter.WriteNextError(err)` through the interface. -/
def responseWriter.WriteNextError (env : Env) (rw : responseWriter) (err : Str)
    (ctx : RequestCtx) : responseWriter × RequestCtx × Option Str :=
  match rw with
  | .multipart w =>
    match w.WriteNextError env err ctx with
    | (w1, ctx1, e) => (.multipart w1, ctx1, e)
  | .json w =>
    match w.WriteNextError env err ctx with
    | (ctx1, e) => (.json w, ctx1, e)

/-- Go `resWriter.Close()` through the interface. -/
def responseWriter.Close (env : Env) (rw : responseWriter) (ctx : RequestCtx) :
    RequestCtx × Option Str :=
  match rw with
  | .multipart w =>
    match w.Close env ctx with
    | (_, ctx1, e) => (ctx1, e)
  | .json w => w.Close env ctx

/-! ## `server.go` -/

/-- Go `responseType`. -/
inductive responseType
  | responseTypeMultipart
  | responseTypeJson
deriving DecidableEq, Repr

/-- Go `newJsonRequestReader` followed by `init`: the reader over the decoded
body, or the decoder's error. -/
def jsonRequestReader.init (env : Env) (requestBody : Str) : Except Str jsonRequestReader :=
  match env.decode requestBody with
  | .error e => .error e
  | .ok req => .ok { parsedBody := req, currentRequest := 0 }

/-- Go `parseJsonRequest`. -/
def parseJsonRequest (env : Env) (ctx : RequestCtx) (_cth : Str) : Except Str requestReader :=
  match jsonRequestReader.init env ctx.reqBody with
  | .error e => .error ("failed to parse json body: ".toList ++ e)
  | .ok jr => .ok (.json jr)

/-- The loop of `parseMultipartRequest` over the segments of the header: the
value of `boundary` when the loop is left. -/
def findBoundary : List Str → Str
  | [] => []
  | c :: cs =>
    let trimmed := Trim c
    if HasPrefix trimmed boundaryParam then TrimPrefix trimmed boundaryParam
    else findBoundary cs

/-- The first half of `parseMultipartRequest`: the boundary handed to
`multipart.NewReader`, or the error returned. -/
def multipartBoundary (cth : Str) : Except Str Str :=
  let boundary := findBoundary (Split ';' cth)
  if boundary = [] then .error noBoundary
  else .ok boundary

/-- Go `parseMultipartRequest`. -/
def parseMultipartRequest (env : Env) (ctx : RequestCtx) (cth : Str) : Except Str requestReader :=
  match multipartBoundary cth with
  | .error e => .error e
  | .ok boundary => .ok (.multipart { mpr := env.newReader ctx.reqBody boundary })

/-- Go `parseRequest`.  On an error the handler uses the error only, so the
reader and the response type are returned on success only. -/
def parseRequest (env : Env) (ctx : RequestCtx) : Except Str (requestReader × responseType) :=
  let cth := ctx.reqContentType
  if HasPrefix cth multipartMixed then
    match parseMultipartRequest env ctx cth with
    | .error e => .error e
    | .ok rr => .ok (rr, .responseTypeMultipart)
  else if HasPrefix cth applicationJson then
    match parseJsonRequest env ctx cth with
    | .error e => .error e
    | .ok rr => .ok (rr, .responseTypeJson)
  else .error ("unsupported content type: ".toList ++ cth)

/-- The `switch resType` of `HandleMani`: the response content type is set and
the writer built.  No writer is the panic of the type assertion
`rr.(*jsonRequestReader)` on a reader of the other kind. -/
def selectWriter (env : Env) (ctx : RequestCtx) (rr : requestReader) (resType : responseType) :
    RequestCtx × Option responseWriter :=
  match resType with
  | .responseTypeJson =>
    let ctx1 := ctx.SetContentType applicationJson
    match rr with
    | .json r =>
      (ctx1, some (.json { numResponses := (r.parsedBody.Requests.length : Int), responseNum := 0 }))
    | .multipart _ => (ctx1, none)
  | .responseTypeMultipart =>
    let mpWriter : multipartWriter := { boundary := env.boundary, lastpart := false }
    (ctx.SetContentType ("multipart/mixed; boundary=".toList ++ mpWriter.boundary),
      some (.multipart { resWriter := mpWriter }))

/-- A call the handler makes on the response writer. -/
inductive WriterCall
  | Open
  | WriteNextResponse (res : Response)
  | WriteNextError (err : Str)
  | Close
deriving DecidableEq, Repr

/-- The state of a batch inside `HandleMani`: reader, writer and context, with
the record of the requests handed to the outbound client and of the calls made
on the response writer, both in order. -/
structure Batch where
  rr : requestReader
  resWriter : responseWriter
  ctx : RequestCtx
  sent : List Request
  calls : List WriterCall
deriving DecidableEq, Repr

/-- The ways `HandleMani` ends: its `return` statements in source order, the
end of the function body, the deferred `recover()`, and the fuel of the model
running out. -/
inductive Exit
  | parseFailed
  | openFailed
  | readFailed
  | writeErrorFailed
  | writeResponseFailed
  | closeFailed
  | completed
  | recovered
  | outOfFuel
deriving DecidableEq, Repr

/-- The call on the response writer that answers a result of the outbound
client. -/
def elementCall : Except Str Response → WriterCall
  | .error err => .WriteNextError err
  | .ok res => .WriteNextResponse res

/-- The second half of an iteration of the `Loop:` of `HandleMani`, after a
successful read: the outbound call and the call on the response writer.  The
second component is `none` when the loop goes on, and the way the handler
returns otherwise. -/
def dispatch (env : Env) (b : Batch) (rr1 : requestReader) (req : Request) : Batch × Option Exit :=
  match env.client b.sent.length req with
  | .error err =>
    match b.resWriter.WriteNextError env err b.ctx with
    | (w1, ctx1, some _) =>
      ({ rr := rr1, resWriter := w1, ctx := ctx1, sent := b.sent ++ [req],
         calls := b.calls ++ [.WriteNextError err] },
        some .writeErrorFailed)
    | (w1, ctx1, none) =>
      ({ rr := rr1, resWriter := w1, ctx := ctx1, sent := b.sent ++ [req],
         calls := b.calls ++ [.WriteNextError err] },
        none)
  | .ok res =>
    match b.resWriter.WriteNextResponse env res b.ctx with
    | (w1, ctx1, some e) =>
      ({ rr := rr1, resWriter := w1,
         ctx := (ctx1.SetBodyString ("Failed to write part ".toList ++ e ++ ".".toList)).SetStatusCode
           500,
         sent := b.sent ++ [req], calls := b.calls ++ [.WriteNextResponse res] },
        some .writeResponseFailed)
    | (w1, ctx1, none) =>
      ({ rr := rr1, resWriter := w1, ctx := ctx1, sent := b.sent ++ [req],
         calls := b.calls ++ [.WriteNextResponse res] },
        none)

/-- The `Loop:` of `HandleMani`, one iteration per unit of fuel.  The second
component is `none` after `break Loop`. -/
def handleLoop (env : Env) : Nat → Batch → Batch × Option Exit
  | 0, b => (b, some .outOfFuel)
  | fuel + 1, b =>
    match b.rr.readNextRequest env.canon (Request.Reset {}) with
    | (rr1, _, .failed .EOF) => ({ b with rr := rr1 }, none)
    | (rr1, _, .failed (.other e)) =>
      ({ b with
          rr := rr1
          ctx := (b.ctx.SetBodyString ("Failed to read multipart message: ".toList ++ e)).SetStatusCode
            400 },
        some .readFailed)
    | (rr1, _, .panicked) => ({ b with rr := rr1 }, some .recovered)
    | (rr1, req, .ok) =>
      match dispatch env b rr1 req with
      | (b1, some ex) => (b1, some ex)
      | (b1, none) => handleLoop env fuel b1

/-- The outcome of `HandleMani`: the context with the response, the requests
handed to the outbound client, the calls made on the response writer, and how
the handler ended. -/
structure Run where
  ctx : RequestCtx
  sent : List Request
  calls : List WriterCall
  exit : Exit
deriving DecidableEq, Repr

/-- The first half of `HandleMani`, up to a successful `resWriter.Open()`: the
batch as it stands right after `Open`, or `none` when the handler has ended
before. -/
def opened (env : Env) (ctx : RequestCtx) : Option Batch :=
  match parseRequest env ctx with
  | .error _ => none
  | .ok (rr, resType) =>
    match selectWriter env ctx rr resType with
    | (_, none) => none
    | (ctx1, some resWriter) =>
      match resWriter.Open env ctx1 with
      | (_, some _) => none
      | (ctx2, none) =>
        some { rr := rr, resWriter := resWriter, ctx := ctx2, sent := [], calls := [.Open] }

/-- The end of `HandleMani` once the loop is left: the returns inside the loop
keep the context, a panic runs the deferred `recover()`, and `break Loop`
leads to `resWriter.Close()`. -/
def finish (env : Env) : Batch × Option Exit → Run
  | (b, some .recovered) =>
    { ctx := b.ctx.SetStatusCode 500, sent := b.sent, calls := b.calls, exit := .recovered }
  | (b, some ex) => { ctx := b.ctx, sent := b.sent, calls := b.calls, exit := ex }
  | (b, none) =>
    match b.resWriter.Close env b.ctx with
    | (ctx3, some err) =>
      { ctx := (ctx3.SetBodyString ("Failed to write part ".toList ++ err ++ ".".toList)).SetStatusCode
          500,
        sent := b.sent, calls := b.calls ++ [.Close], exit := .closeFailed }
    | (ctx3, none) =>
      { ctx := ctx3, sent := b.sent, calls := b.calls ++ [.Close], exit := .completed }

/-- Go `HandleMani`. -/
def HandleMani (env : Env) (ctx : RequestCtx) : Run :=
  match parseRequest env ctx with
  | .error err =>
    { ctx := (ctx.SetStatusCode 400).SetBodyString
        ("Failed to parse request: ".toList ++ err ++ ".".toList),
      sent := [], calls := [], exit := .parseFailed }
  | .ok (rr, resType) =>
    match selectWriter env ctx rr resType with
    | (ctx1, none) => { ctx := ctx1.SetStatusCode 500, sent := [], calls := [], exit := .recovered }
    | (ctx1, some resWriter) =>
      match resWriter.Open env ctx1 with
      | (ctx2, some err) =>
        { ctx := (ctx2.SetContentType "text/plain".toList).SetBodyString
            ("Failed to open response: ".toList ++ err),
          sent := [], calls := [.Open], exit := .openFailed }
      | (ctx2, none) =>
        finish env (handleLoop env (rr.remaining + 1)
          { rr := rr, resWriter := resWriter, ctx := ctx2, sent := [], calls := [.Open] })

/-! ## Notions the statements use -/

/-- The segments of a `Content-Type` value: split on `;`, spaces trimmed. -/
def segments (cth : Str) : List Str := (Split ';' cth).map Trim

/-- The first segment of a `Content-Type` value that starts with `boundary=`. -/
def boundarySegment (cth : Str) : Option Str :=
  (segments cth).find? (fun seg => HasPrefix seg boundaryParam)

/-- Two contexts with the same response status code and content type, for the
same inbound request. -/
def SameHead (a b : RequestCtx) : Prop :=
  a.statusCode = b.statusCode ∧ a.contentType = b.contentType ∧
    a.reqContentType = b.reqContentType ∧ a.reqBody = b.reqBody

instance (a b : RequestCtx) : Decidable (SameHead a b) := by
  unfold SameHead
  infer_instance

/-- The JSON reader after `k` calls of `readNextRequest`, the call numbered
`i` (from 0) being given the buffer `bufs i`. -/
def readerAfter (r : jsonRequestReader) (bufs : Nat → Request) : Nat → jsonRequestReader
  | 0 => r
  | k + 1 => ((readerAfter r bufs k).readNextRequest (bufs k)).1

/-- The results of the outbound client for a list of requests handed to it in
this order, the first of them in the call numbered `start`. -/
def outcomes (env : Env) (start : Nat) : List Request → List (Except Str Response)
  | [] => []
  | req :: rest => env.client start req :: outcomes env (start + 1) rest

/-- The sub-requests a reader yields, each into a reset buffer, up to its first
read that does not succeed (within the given number of reads). -/
def requestsOf (canon : Str → Str) : Nat → requestReader → List Request
  | 0, _ => []
  | fuel + 1, rr =>
    match rr.readNextRequest canon (Request.Reset {}) with
    | (rr1, req, .ok) => req :: requestsOf canon fuel rr1
    | _ => []

/-- A multipart part that names URL and method and whose body can be read. -/
def Part.WellFormed (canon : Str → Str) (p : Part) : Prop :=
  MIMEHeader.Get canon p.Header urlHeader ≠ [] ∧
    MIMEHeader.Get canon (MIMEHeader.Del canon p.Header urlHeader) methodHeader ≠ [] ∧
    p.body.toBool = true

instance (canon : Str → Str) (p : Part) : Decidable (p.WellFormed canon) := by
  unfold Part.WellFormed
  infer_instance

/-- A reader over a well-formed envelope: every header entry of a JSON
sub-request has at least two strings; a multipart stream ends with `io.EOF`
after parts that are all well formed. -/
def requestReader.WellFormed (canon : Str → Str) : requestReader → Prop
  | .json r => ∀ e ∈ r.parsedBody.Requests, ∀ h ∈ e.Headers, 2 ≤ h.length
  | .multipart r => r.mpr.final = .EOF ∧ ∀ p ∈ r.mpr.parts, p.WellFormed canon

instance (canon : Str → Str) (rr : requestReader) : Decidable (rr.WellFormed canon) := by
  cases rr <;> unfold requestReader.WellFormed <;> infer_instance

/-- The members `encoding/json` writes for the `body` object of a response,
by the struct tags of `ManiBodyEnum` (`json:"bytes,omitempty"`,
`json:"json,omitempty"`): a field whose slice is nil or empty is left out.
Each member is the name of the field with the slice it carries. -/
def ManiBodyEnum.members (b : ManiBodyEnum) : List (Str × Str) :=
  (match b.Bytes with
    | some (c :: cs) => [("bytes".toList, c :: cs)]
    | _ => []) ++
  (match b.JSON with
    | some (c :: cs) => [("json".toList, c :: cs)]
    | _ => [])

/-- The `body` of the element `WriteNextResponse` marshals for a response. -/
def jsonBodyOf (res : Response) : ManiBodyEnum :=
  match (jsonResponseOf res).Response with
  | some r => r.Body
  | none => {}

/-- The header pairs of the element `WriteNextResponse` marshals for a
response. -/
def jsonHeadersOf (res : Response) : List (List Str) :=
  match (jsonResponseOf res).Response with
  | some r => r.Headers
  | none => []

/-- The response body of the second context is the one of the first with
more bytes after it. -/
def Grows (a b : RequestCtx) : Prop := ∃ rest, b.body = a.body ++ rest

/-- The writer the handler holds after a call of `WriteNextResponse` or
`WriteNextError` that did not fail: the JSON writer is the one it was (the
methods have value receivers), the multipart writer has created a part. -/
def responseWriter.next : responseWriter → responseWriter
  | .json w => .json w
  | .multipart w => .multipart { resWriter := { w.resWriter with lastpart := true } }

/-- The element for a result of the outbound client: the bytes a call of
`WriteNextError`, respectively `WriteNextResponse`, that does not fail appends
to the response body.  For the JSON writer these are the marshalled wrapper,
`\x7b"error":\x7b"detail":...\x7d\x7d` for an error, and the separator if the writer
writes one; for the multipart writer the head of a part, with the header
`x-mani-error` for an error, and its body, the message of the error or the
body of the response. -/
def responseWriter.element (env : Env) (rw : responseWriter) : Except Str Response → Str
  | .error err =>
    match rw with
    | .json w =>
      (match env.marshal { Error := some { Detail := err }, Response := none } with
        | .ok bts => bts
        | .error _ => []) ++
      (if w.responseNum < w.numResponses - 1 then comma else [])
    | .multipart w =>
      env.partHead w.resWriter.boundary w.resWriter.lastpart
        [(env.canon "x-mani-error".toList, [err])] ++ err
  | .ok res =>
    match rw with
    | .json w =>
      (match env.marshal (jsonResponseOf res) with
        | .ok bts => bts
        | .error _ => []) ++
      (if w.responseNum < w.numResponses - 1 then comma else [])
    | .multipart w =>
      env.partHead w.resWriter.boundary w.resWriter.lastpart (mimeHeaderOf env.canon res) ++
        res.body

/-- The elements for a list of results, written one after the other. -/
def responseWriter.elements (env : Env) : responseWriter → List (Except Str Response) → List Str
  | _, [] => []
  | rw, o :: os => rw.element env o :: (rw.next).elements env os

/-- The bytes a call of `Close` that does not fail appends. -/
def responseWriter.trailer (env : Env) : responseWriter → Str
  | .json _ => jsonEnd
  | .multipart w => env.closing w.resWriter.boundary

/-- One call `req.Header.Set(key, value)` for every value of every entry of a
part header, entry by entry. -/
def setCalls (h : MIMEHeader) : List HeaderCall :=
  (h.map (fun e => e.2.map (HeaderCall.Set e.1))).flatten

/-! ## A sample environment

Concrete stand-ins for the libraries, used to run the definitions on examples. -/

/-- The canonical form of a header key made of letters, digits and `-`: the
first letter and every letter after a `-` in upper case, the others in lower
case. -/
def canonKey (key : Str) : Str :=
  go true key
where
  /-- The flag says whether the next letter starts a word. -/
  go : Bool → Str → Str
    | _, [] => []
    | up, c :: cs => (if up then c.toUpper else c.toLower) :: go (c == '-') cs

/-- The base64 alphabet. -/
def b64Alphabet : Str :=
  "ABCDEFGHIJKLMNOPQRSTUVWXYZabcdefghijklmnopqrstuvwxyz0123456789+/".toList

/-- The base64 digit of a number below 64. -/
def b64Char (n : Nat) : Char := b64Alphabet.getD n 'A'

/-- Standard base64 with padding, as `encoding/json` writes a `[]byte`. -/
def base64 : Str → Str
  | [] => []
  | [a] => [b64Char (a.toNat / 4), b64Char (a.toNat % 4 * 16), '=', '=']
  | [a, b] =>
    [b64Char (a.toNat / 4), b64Char (a.toNat % 4 * 16 + b.toNat / 16),
      b64Char (b.toNat % 16 * 4), '=']
  | a :: b :: c :: rest =>
    b64Char (a.toNat / 4) :: b64Char (a.toNat % 4 * 16 + b.toNat / 16) ::
      b64Char (b.toNat % 16 * 4 + c.toNat / 64) :: b64Char (c.toNat % 64) :: base64 rest

/-- A JSON string literal for text that needs no escaping. -/
def quote (s : Str) : Str := "\x22".toList ++ s ++ "\x22".toList

/-- The items of a list with the separator between them. -/
def joinWith (sep : Str) : List Str → Str
  | [] => []
  | [x] => x
  | x :: y :: rest => x ++ sep ++ joinWith sep (y :: rest)

/-- Whether a raw message begins the way a JSON value does. -/
def startsJSONValue (raw : Str) : Bool :=
  match raw.dropWhile (fun c => c == ' ' || c == '\n' || c == '\t' || c == '\r') with
  | [] => false
  | c :: _ => c.isDigit || "\x7b[\x22-tfn".toList.contains c

/-- The decimal text of an integer. -/
def decimal (n : Int) : Str :=
  if n < 0 then '-' :: Nat.toDigits 10 n.natAbs else Nat.toDigits 10 n.natAbs

/-- The `body` object of a response: empty fields are left out (`omitempty`),
bytes are base64 text, a raw message is copied.  A raw message that does not
begin a JSON value is the error `json.Marshal` reports for it. -/
def sampleMarshalBody (b : ManiBodyEnum) : Except Str Str :=
  let bytes : List Str :=
    match b.Bytes with
    | some (c :: cs) => ["\x22bytes\x22:".toList ++ quote (base64 (c :: cs))]
    | _ => []
  match b.JSON with
  | some (c :: cs) =>
    if startsJSONValue (c :: cs) then
      .ok ("\x7b".toList ++ joinWith ",".toList (bytes ++ ["\x22json\x22:".toList ++ (c :: cs)]) ++
        "\x7d".toList)
    else .error "json: error calling MarshalJSON for type json.RawMessage".toList
  | _ => .ok ("\x7b".toList ++ joinWith ",".toList bytes ++ "\x7d".toList)

/-- A stand-in for `json.Marshal` on the wrapper, right for texts that need no
escaping. -/
def sampleMarshal (w : ManiJSONResponseWrapper) : Except Str Str :=
  let err : List Str :=
    match w.Error with
    | some e => ["\x22error\x22:\x7b\x22detail\x22:".toList ++ quote e.Detail ++ "\x7d".toList]
    | none => []
  match w.Response with
  | none => .ok ("\x7b".toList ++ joinWith ",".toList err ++ "\x7d".toList)
  | some r =>
    match sampleMarshalBody r.Body with
    | .error e => .error e
    | .ok body =>
      let hs := r.Headers.map (fun h => "[".toList ++ joinWith ",".toList (h.map quote) ++ "]".toList)
      let res := "\x22response\x22:\x7b\x22statusCode\x22:".toList ++ decimal r.StatusCode ++
        ",\x22headers\x22:[".toList ++ joinWith ",".toList hs ++ "],\x22body\x22:".toList ++ body ++
        "\x7d".toList
      .ok ("\x7b".toList ++ joinWith ",".toList (err ++ [res]) ++ "\x7d".toList)

/-- The header lines of a part, in the order of the entries. -/
def sampleHeaderLines : MIMEHeader → Str
  | [] => []
  | (k, vs) :: rest =>
    (vs.map (fun v => k ++ ": ".toList ++ v ++ "\r\n".toList)).flatten ++ sampleHeaderLines rest

/-- The helper of `fasthttp` behind `Header.Set` for a key without a field of
its own: the value of the first header with this key is replaced, or the pair
is appended when there is none. -/
def setArg : List (Str × Str) → Str → Str → List (Str × Str)
  | [], k, v => [(k, v)]
  | kv :: rest, k, v => if kv.1 = k then (k, v) :: rest else kv :: setArg rest k v

/-- A stand-in for the header store of a `fasthttp.Request`: the fields it
keeps for `Host`, `Content-Type` and `User-Agent`, and the list of the other
headers. -/
structure sampleHeader where
  host : Str := []
  contentType : Str := []
  userAgent : Str := []
  h : List (Str × Str) := []
deriving DecidableEq, Repr

/-- A stand-in for what `fasthttp` does on `Header.Add` and `Header.Set`: the
key is brought into canonical case; `Host`, `Content-Type` and `User-Agent` go
to their own fields, where a later value replaces the earlier one;
`Content-Length` and `Transfer-Encoding` are dropped (the library manages
them); any other key is appended by `Add` and set by `Set`.  (`Cookie` and
`Connection`, which the library also treats on their own, are plain keys
here.) -/
def sampleHeader.call (hd : sampleHeader) (c : HeaderCall) : sampleHeader :=
  let k := canonKey c.key
  if k = "Host".toList then { hd with host := c.value }
  else if k = "Content-Type".toList then { hd with contentType := c.value }
  else if k = "User-Agent".toList then { hd with userAgent := c.value }
  else if k = "Content-Length".toList ∨ k = "Transfer-Encoding".toList then hd
  else
    match c with
    | .Add _ v => { hd with h := hd.h ++ [(k, v)] }
    | .Set _ v => { hd with h := setArg hd.h k v }

/-- A stand-in for `Header.VisitAll` on a request after the given calls: the
headers the request carries, the ones with a field of their own first. -/
def sampleVisitAll (calls : List HeaderCall) : List (Str × Str) :=
  let hd := calls.foldl sampleHeader.call {}
  (if hd.host = [] then [] else [("Host".toList, hd.host)]) ++
    (if hd.contentType = [] then [] else [("Content-Type".toList, hd.contentType)]) ++
    (if hd.userAgent = [] then [] else [("User-Agent".toList, hd.userAgent)]) ++ hd.h

/-- A sample environment: the inbound body decodes to `doc` (as JSON) and reads
as `stream` (as multipart), the outbound client behaves as `client`, the
response boundary is `RESP`, and no write on the response body fails. -/
def sampleEnv (doc : Except Str jsonRequestBody) (stream : multipartReader)
    (client : Nat → Request → Except Str Response) : Env where
  canon := canonKey
  decode := fun _ => doc
  newReader := fun _ _ => stream
  boundary := "RESP".toList
  partHead := fun bd started h =>
    (if started then "\r\n--".toList else "--".toList) ++ bd ++ "\r\n".toList ++
      sampleHeaderLines h ++ "\r\n".toList
  closing := fun bd => "\r\n--".toList ++ bd ++ "--\r\n".toList
  marshal := sampleMarshal
  client := client
  writeFault := fun _ => none

/-- A fresh request context for an inbound request with the given content
type: status 200, the default content type of `fasthttp`, an empty body. -/
def sampleCtx (ct : Str) (body : Str) : RequestCtx :=
  { reqContentType := ct, reqBody := body, statusCode := 200,
    contentType := "text/plain; charset=utf-8".toList, body := [], writes := 0 }

/-- An empty multipart stream. -/
def noParts : multipartReader := { parts := [], final := .EOF }

/-- An outbound client for which every call fails with `connection refused`. -/
def refusing : Nat → Request → Except Str Response :=
  fun _ _ => .error "connection refused".toList

/-- A JSON sub-request `GET u` without headers or body. -/
def getRequest (u : Str) : jsonRequest :=
  { URL := u, Method := "GET".toList, Headers := [], Body := {} }

/-- A JSON envelope with two sub-requests. -/
def twoRequests : jsonRequestBody :=
  { Requests := [getRequest "http://a/".toList, getRequest "http://b/".toList] }

/-- A multipart part `POST http://a/` with one more header and a body. -/
def goodPart : Part :=
  { Header := [("X-Mani-Url".toList, ["http://a/".toList]), ("X-Mani-Method".toList, ["POST".toList]),
      ("Content-Type".toList, ["text/plain".toList])],
    body := .ok "hello".toList }

/-- A multipart part with a URL header and no method header. -/
def noMethodPart : Part :=
  { Header := [("X-Mani-Url".toList, ["http://b/".toList])], body := .ok [] }

/-- A multipart part whose URL header is there with an empty value. -/
def emptyUrlPart : Part :=
  { Header := [("X-Mani-Url".toList, [[]]), ("X-Mani-Method".toList, ["GET".toList])],
    body := .ok [] }

/-- An inbound multipart request with boundary `B`. -/
def multipartCtx : RequestCtx := sampleCtx "multipart/mixed; boundary=B".toList []

/-- An inbound JSON request. -/
def jsonCtx : RequestCtx := sampleCtx "application/json".toList []

/-- A JSON sub-request whose only header entry has one string, with a body. -/
def shortHeaderRequest : jsonRequest :=
  { URL := "http://a/".toList, Method := "POST".toList, Headers := [["x-a".toList]],
    Body := { Bytes := some "x".toList } }

/-- A JSON sub-request with both `body.bytes` and `body.json`. -/
def bothBodiesRequest : jsonRequest :=
  { URL := "http://a/".toList, Method := "PUT".toList,
    Headers := [["x-a".toList, "1".toList]],
    Body := { Bytes := some "raw".toList, JSON := some "[1]".toList } }

/-- An upstream that answers every call with status 200, content type
`application/json` and the body `x`, which is not JSON. -/
def badJsonUpstream : Nat → Request → Except Str Response :=
  fun _ _ =>
    .ok { statusCode := 200, header := [("Content-Type".toList, applicationJson)],
          contentType := applicationJson, body := "x".toList }

/-- An upstream that answers every call with status 200 and the plain text
`hi`. -/
def plainUpstream : Nat → Request → Except Str Response :=
  fun _ _ =>
    .ok { statusCode := 200, header := [("Content-Type".toList, "text/plain".toList)],
          contentType := "text/plain".toList, body := "hi".toList }

/-- An upstream that refuses the call numbered 1 and answers the others like
`plainUpstream`. -/
def secondRefused : Nat → Request → Except Str Response :=
  fun i req => if i = 1 then .error "connection refused".toList else plainUpstream i req

/-- A JSON envelope with three sub-requests. -/
def threeRequests : jsonRequestBody :=
  { Requests := [getRequest "http://a/".toList, getRequest "http://b/".toList,
      getRequest "http://c/".toList] }

/-- A multipart part with URL and method whose body cannot be read to its end
(the stream breaks off). -/
def truncatedPart : Part :=
  { Header := [("X-Mani-Url".toList, ["http://a/".toList]), ("X-Mani-Method".toList, ["POST".toList])],
    body := .error "unexpected EOF".toList }

/-- The sample environment in which the write numbered `k` (from 0) on the
response body fails with `broken pipe`. -/
def faultyEnv (k : Nat) (doc : Except Str jsonRequestBody) (stream : multipartReader)
    (client : Nat → Request → Except Str Response) : Env :=
  { sampleEnv doc stream client with
    writeFault := fun n => if n = k then some "broken pipe".toList else none }

/-- A JSON envelope with one sub-request. -/
def oneRequest : jsonRequestBody := { Requests := [getRequest "http://a/".toList] }

/-- A JSON envelope whose second sub-request has a header entry of one
string. -/
def secondShortHeader : jsonRequestBody :=
  { Requests := [getRequest "http://a/".toList, shortHeaderRequest] }

/-- A response with two `Set-Cookie` headers. -/
def twoCookies : Response :=
  { statusCode := 200,
    header := [("Set-Cookie".toList, "a=1".toList), ("Set-Cookie".toList, "b=2".toList)],
    contentType := "text/plain".toList, body := "hi".toList }

/-- A response with content type `application/json` and an empty body. -/
def emptyJsonResponse : Response :=
  { statusCode := 204, header := [("Content-Type".toList, applicationJson)],
    contentType := applicationJson, body := [] }

/-- A response with content type `application/json` and the body `[1]`. -/
def jsonResponse : Response :=
  { statusCode := 200, header := [("Content-Type".toList, applicationJson)],
    contentType := applicationJson, body := "[1]".toList }

/-- A multipart part whose URL header is there with an empty value and which
has no method header. -/
def emptyUrlNoMethodPart : Part :=
  { Header := [("X-Mani-Url".toList, [[]])], body := .ok [] }

/-- A multipart part with URL, method and a `Content-Length` header. -/
def contentLengthPart : Part :=
  { Header := [("X-Mani-Url".toList, ["http://a/".toList]), ("X-Mani-Method".toList, ["POST".toList]),
      ("Content-Length".toList, ["5".toList])],
    body := .ok "hello".toList }

/-- A JSON sub-request with two `content-type` header pairs and one more
pair. -/
def contentTypeTwiceRequest : jsonRequest :=
  { URL := "http://a/".toList, Method := "POST".toList,
    Headers := [["content-type".toList, "text/a".toList], ["content-type".toList, "text/b".toList],
      ["x-a".toList, "1".toList]],
    Body := {} }

/-- An upstream that answers every call with `twoCookies`. -/
def cookieUpstream : Nat → Request → Except Str Response := fun _ _ => .ok twoCookies

/-- A JSON sub-request with three header pairs, two of them under one key. -/
def duplicateHeadersRequest : jsonRequest :=
  { URL := "http://a/".toList, Method := "GET".toList,
    Headers := [["x-a".toList, "1".toList], ["x-a".toList, "2".toList], ["x-b".toList, "3".toList]],
    Body := {} }

end Mani

/-! # Theorems -/

namespace Mani

/-! ## Strings -/

theorem HasPrefix_iff (s p : Str) : HasPrefix s p = true ↔ ∃ rest, s = p ++ rest := by
  unfold HasPrefix
  rw [List.isPrefixOf_iff_prefix]
  constructor
  · rintro ⟨t, ht⟩
    exact ⟨t, ht.symm⟩
  · rintro ⟨t, ht⟩
    exact ⟨t, ht.symm⟩

theorem HasPrefix_append (p rest : Str) : HasPrefix (p ++ rest) p = true :=
  (HasPrefix_iff _ _).2 ⟨rest, rfl⟩

theorem TrimPrefix_append (p rest : Str) : TrimPrefix (p ++ rest) p = rest := by
  simp [TrimPrefix, HasPrefix_append]

/-! ## `parseMultipartRequest` -/

theorem findBoundary_eq (l : List Str) :
    findBoundary l =
      match (l.map Trim).find? (fun seg => HasPrefix seg boundaryParam) with
      | none => []
      | some seg => TrimPrefix seg boundaryParam := by
  induction l with
  | nil => rfl
  | cons c cs ih =>
    by_cases h : HasPrefix (Trim c) boundaryParam = true
    · simp [findBoundary, List.find?, h]
    · simp only [findBoundary, List.map_cons, List.find?, h, ih]
      simp

theorem boundarySegment_form (cth seg : Str) (h : boundarySegment cth = some seg) :
    ∃ rest, seg = boundaryParam ++ rest := by
  have := List.find?_some h
  exact (HasPrefix_iff _ _).1 this

theorem multipartBoundary_eq (cth : Str) :
    multipartBoundary cth =
      match boundarySegment cth with
      | none => .error noBoundary
      | some seg =>
        if TrimPrefix seg boundaryParam = [] then
          .error noBoundary
        else .ok (TrimPrefix seg boundaryParam) := by
  unfold multipartBoundary boundarySegment segments
  rw [findBoundary_eq]
  cases (List.map Trim (Split ';' cth)).find? (fun seg => HasPrefix seg boundaryParam) with
  | none => simp
  | some seg => simp

/-- C8 (counterexample): for the header `multipart/mixed; boundary=` a segment
starts with `boundary=`, and `parseMultipartRequest` still fails with
`failed to parse multipart boundary`. -/
theorem parseMultipartRequest_empty_boundary :
    boundarySegment "multipart/mixed; boundary=".toList = some boundaryParam ∧
      parseMultipartRequest (sampleEnv (.ok twoRequests) noParts refusing)
          (sampleCtx "multipart/mixed; boundary=".toList []) "multipart/mixed; boundary=".toList =
        .error noBoundary := by
  decide

/-- C8 (amended): `parseMultipartRequest` fails with
`failed to parse multipart boundary` exactly when no segment of the header
(split on `;`, spaces trimmed) starts with `boundary=` or the first such
segment is `boundary=` alone; otherwise the boundary handed to the multipart
reader is the text after `boundary=` in the first such segment, as it stands. -/
theorem parseMultipartRequest_boundary (env : Env) (ctx : RequestCtx) (cth : Str) :
    (parseMultipartRequest env ctx cth = .error noBoundary ↔
        (boundarySegment cth = none ∨ boundarySegment cth = some boundaryParam)) ∧
      (∀ rest : Str, rest ≠ [] → boundarySegment cth = some (boundaryParam ++ rest) →
        parseMultipartRequest env ctx cth =
          .ok (.multipart { mpr := env.newReader ctx.reqBody rest })) ∧
      (∀ seg : Str, boundarySegment cth = some seg → ∃ rest, seg = boundaryParam ++ rest) := by
  refine ⟨?_, ?_, boundarySegment_form cth⟩
  · unfold parseMultipartRequest
    rw [multipartBoundary_eq]
    cases hb : boundarySegment cth with
    | none => simp
    | some seg =>
      obtain ⟨rest, rfl⟩ := boundarySegment_form cth seg hb
      by_cases hr : rest = []
      · subst hr
        have h0 : TrimPrefix boundaryParam boundaryParam = [] := by
          simpa using TrimPrefix_append boundaryParam []
        simp [h0]
      · simp [TrimPrefix_append, hr]
  · intro rest hr hb
    unfold parseMultipartRequest
    rw [multipartBoundary_eq, hb]
    simp [TrimPrefix_append, hr]

/-! ## The response writers leave status code and content type alone -/

theorem SameHead.refl (a : RequestCtx) : SameHead a a := ⟨rfl, rfl, rfl, rfl⟩

theorem SameHead.trans {a b c : RequestCtx} (h1 : SameHead a b) (h2 : SameHead b c) :
    SameHead a c :=
  ⟨h1.1.trans h2.1, h1.2.1.trans h2.2.1, h1.2.2.1.trans h2.2.2.1, h1.2.2.2.trans h2.2.2.2⟩

theorem Write_head (env : Env) (ctx : RequestCtx) (p : Str) : SameHead ctx (ctx.Write env p).1 := by
  unfold RequestCtx.Write
  split <;> exact ⟨rfl, rfl, rfl, rfl⟩

theorem writeComma_head (env : Env) (w : jsonResponseWriter) (ctx : RequestCtx) :
    SameHead ctx (w.writeComma env ctx).1 := by
  unfold jsonResponseWriter.writeComma
  split
  · exact Write_head env ctx comma
  · exact SameHead.refl ctx

theorem json_WriteNextResponse_head (env : Env) (w : jsonResponseWriter) (res : Response)
    (ctx : RequestCtx) : SameHead ctx (w.WriteNextResponse env res ctx).2.1 := by
  unfold jsonResponseWriter.WriteNextResponse
  cases env.marshal (jsonResponseOf res) with
  | error e => exact SameHead.refl ctx
  | ok bts =>
    have h1 := Write_head env ctx bts
    rcases hw : ctx.Write env bts with ⟨ctx1, e1⟩
    rw [hw] at h1
    simp only [hw]
    cases e1 with
    | some e => exact h1
    | none => exact h1.trans (writeComma_head env w ctx1)

theorem json_WriteNextError_head (env : Env) (w : jsonResponseWriter) (err : Str)
    (ctx : RequestCtx) : SameHead ctx (w.WriteNextError env err ctx).1 := by
  unfold jsonResponseWriter.WriteNextError
  cases env.marshal (jsonErrorOf err) with
  | error e => exact SameHead.refl ctx
  | ok bts =>
    have h1 := Write_head env ctx bts
    rcases hw : ctx.Write env bts with ⟨ctx1, e1⟩
    rw [hw] at h1
    simp only [hw]
    cases e1 with
    | some e => exact h1
    | none => exact h1.trans (writeComma_head env w ctx1)

theorem CreatePart_head (env : Env) (mw : multipartWriter) (h : MIMEHeader) (ctx : RequestCtx) :
    SameHead ctx (mw.CreatePart env h ctx).2.1 := by
  unfold multipartWriter.CreatePart
  have h1 := Write_head env ctx (env.partHead mw.boundary mw.lastpart h)
  rcases hw : ctx.Write env (env.partHead mw.boundary mw.lastpart h) with ⟨ctx1, e1⟩
  rw [hw] at h1
  cases e1 <;> exact h1

theorem multipart_WriteNextResponse_head (env : Env) (w : multipartResponseWriter)
    (res : Response) (ctx : RequestCtx) : SameHead ctx (w.WriteNextResponse env res ctx).2.1 := by
  unfold multipartResponseWriter.WriteNextResponse
  have h1 := CreatePart_head env w.resWriter (mimeHeaderOf env.canon res) ctx
  rcases hw : w.resWriter.CreatePart env (mimeHeaderOf env.canon res) ctx with ⟨mw, ctx1, e1⟩
  rw [hw] at h1
  cases e1 with
  | some e => exact h1
  | none => exact h1.trans (Write_head env ctx1 res.body)

theorem multipart_WriteNextError_head (env : Env) (w : multipartResponseWriter)
    (err : Str) (ctx : RequestCtx) : SameHead ctx (w.WriteNextError env err ctx).2.1 := by
  unfold multipartResponseWriter.WriteNextError
  have h1 := CreatePart_head env w.resWriter (MIMEHeader.Set env.canon [] "x-mani-error".toList err) ctx
  rcases hw : w.resWriter.CreatePart env (MIMEHeader.Set env.canon [] "x-mani-error".toList err) ctx
    with ⟨mw, ctx1, e1⟩
  rw [hw] at h1
  cases e1 with
  | some e => exact h1
  | none => exact h1.trans (Write_head env ctx1 err)

theorem WriteNextResponse_head (env : Env) (rw : responseWriter) (res : Response)
    (ctx : RequestCtx) : SameHead ctx (rw.WriteNextResponse env res ctx).2.1 := by
  cases rw with
  | multipart w => exact multipart_WriteNextResponse_head env w res ctx
  | json w => exact json_WriteNextResponse_head env w res ctx

theorem WriteNextError_head (env : Env) (rw : responseWriter) (err : Str)
    (ctx : RequestCtx) : SameHead ctx (rw.WriteNextError env err ctx).2.1 := by
  cases rw with
  | multipart w => exact multipart_WriteNextError_head env w err ctx
  | json w => exact json_WriteNextError_head env w err ctx

theorem Close_head (env : Env) (rw : responseWriter) (ctx : RequestCtx) :
    SameHead ctx (rw.Close env ctx).1 := by
  cases rw with
  | multipart w =>
    show SameHead ctx (match w.Close env ctx with | (_, ctx1, e) => (ctx1, e)).1
    unfold multipartResponseWriter.Close
    have h1 := Write_head env ctx (env.closing w.resWriter.boundary)
    rcases hw : ctx.Write env (env.closing w.resWriter.boundary) with ⟨ctx1, e1⟩
    rw [hw] at h1
    cases e1 <;> exact h1
  | json w => exact Write_head env ctx jsonEnd

theorem Open_head (env : Env) (rw : responseWriter) (ctx : RequestCtx) :
    SameHead ctx (rw.Open env ctx).1 := by
  cases rw with
  | multipart w => exact SameHead.refl ctx
  | json w => exact Write_head env ctx jsonHead

/-! ## One iteration of the loop -/

theorem dispatch_rr (env : Env) (b : Batch) (rr1 : requestReader) (req : Request) :
    (dispatch env b rr1 req).1.rr = rr1 := by
  unfold dispatch
  cases env.client b.sent.length req with
  | error err =>
    rcases hw : b.resWriter.WriteNextError env err b.ctx with ⟨w1, ctx1, e⟩
    cases e <;> simp only [hw]
  | ok res =>
    rcases hw : b.resWriter.WriteNextResponse env res b.ctx with ⟨w1, ctx1, e⟩
    cases e <;> simp only [hw]

theorem dispatch_sent (env : Env) (b : Batch) (rr1 : requestReader) (req : Request) :
    (dispatch env b rr1 req).1.sent = b.sent ++ [req] := by
  unfold dispatch
  cases env.client b.sent.length req with
  | error err =>
    rcases hw : b.resWriter.WriteNextError env err b.ctx with ⟨w1, ctx1, e⟩
    cases e <;> simp only [hw]
  | ok res =>
    rcases hw : b.resWriter.WriteNextResponse env res b.ctx with ⟨w1, ctx1, e⟩
    cases e <;> simp only [hw]

theorem dispatch_calls (env : Env) (b : Batch) (rr1 : requestReader) (req : Request) :
    (dispatch env b rr1 req).1.calls =
      b.calls ++ [elementCall (env.client b.sent.length req)] := by
  unfold dispatch
  cases env.client b.sent.length req with
  | error err =>
    rcases hw : b.resWriter.WriteNextError env err b.ctx with ⟨w1, ctx1, e⟩
    cases e <;> simp only [hw, elementCall]
  | ok res =>
    rcases hw : b.resWriter.WriteNextResponse env res b.ctx with ⟨w1, ctx1, e⟩
    cases e <;> simp only [hw, elementCall]

/-- An iteration either leaves status code and content type alone (it goes on,
or returns after a failed `WriteNextError`), or returns after a failed
`WriteNextResponse` with status 500 and the content type unchanged. -/
theorem dispatch_head (env : Env) (b : Batch) (rr1 : requestReader) (req : Request) :
    (((dispatch env b rr1 req).2 = none ∨ (dispatch env b rr1 req).2 = some .writeErrorFailed) ∧
        SameHead b.ctx (dispatch env b rr1 req).1.ctx) ∨
      ((dispatch env b rr1 req).2 = some .writeResponseFailed ∧
        (dispatch env b rr1 req).1.ctx.statusCode = 500 ∧
        (dispatch env b rr1 req).1.ctx.contentType = b.ctx.contentType) := by
  unfold dispatch
  cases env.client b.sent.length req with
  | error err =>
    have h1 := WriteNextError_head env b.resWriter err b.ctx
    rcases hw : b.resWriter.WriteNextError env err b.ctx with ⟨w1, ctx1, e⟩
    rw [hw] at h1
    simp only [hw]
    cases e with
    | none => exact Or.inl ⟨Or.inl rfl, h1⟩
    | some e => exact Or.inl ⟨Or.inr rfl, h1⟩
  | ok res =>
    have h1 := WriteNextResponse_head env b.resWriter res b.ctx
    rcases hw : b.resWriter.WriteNextResponse env res b.ctx with ⟨w1, ctx1, e⟩
    rw [hw] at h1
    simp only [hw]
    cases e with
    | none => exact Or.inl ⟨Or.inl rfl, h1⟩
    | some e => exact Or.inr ⟨rfl, rfl, h1.2.1.symm⟩

/-! ## The loop -/

/-- The exits of the loop and what each does to status code and content
type: the content type never changes; the status code changes only when the
reader fails (400) or `WriteNextResponse` fails (500). -/
theorem handleLoop_head (env : Env) (fuel : Nat) (b : Batch) :
    (handleLoop env fuel b).1.ctx.contentType = b.ctx.contentType ∧
      (((handleLoop env fuel b).2 = none ∨ (handleLoop env fuel b).2 = some .writeErrorFailed ∨
          (handleLoop env fuel b).2 = some .recovered ∨
          (handleLoop env fuel b).2 = some .outOfFuel) ∧
          (handleLoop env fuel b).1.ctx.statusCode = b.ctx.statusCode ∨
        (handleLoop env fuel b).2 = some .readFailed ∧
          (handleLoop env fuel b).1.ctx.statusCode = 400 ∨
        (handleLoop env fuel b).2 = some .writeResponseFailed ∧
          (handleLoop env fuel b).1.ctx.statusCode = 500) := by
  induction fuel generalizing b with
  | zero => exact ⟨rfl, Or.inl ⟨Or.inr (Or.inr (Or.inr rfl)), rfl⟩⟩
  | succ fuel ih =>
    unfold handleLoop
    rcases hr : b.rr.readNextRequest env.canon (Request.Reset {}) with ⟨rr1, req, st⟩
    cases st with
    | failed err =>
      cases err with
      | EOF => exact ⟨rfl, Or.inl ⟨Or.inl rfl, rfl⟩⟩
      | other e => exact ⟨rfl, Or.inr (Or.inl ⟨rfl, rfl⟩)⟩
    | panicked => exact ⟨rfl, Or.inl ⟨Or.inr (Or.inr (Or.inl rfl)), rfl⟩⟩
    | ok =>
      simp only []
      have hd := dispatch_head env b rr1 req
      rcases hdis : dispatch env b rr1 req with ⟨b1, ex⟩
      rw [hdis] at hd
      cases ex with
      | some ex =>
        simp only []
        rcases hd with ⟨h | h, hs⟩ | ⟨h, h5, hc⟩
        · cases h
        · cases h
          exact ⟨hs.2.1.symm, Or.inl ⟨Or.inr (Or.inl rfl), hs.1.symm⟩⟩
        · cases h
          exact ⟨hc, Or.inr (Or.inr ⟨rfl, h5⟩)⟩
      | none =>
        simp only []
        rcases hd with ⟨_, hs⟩ | ⟨h, _, _⟩
        · have := ih b1
          rw [hs.1, hs.2.1]
          exact this
        · cases h

/-! ## The loop ends -/

theorem json_read_reader (r : jsonRequestReader) (req : Request) :
    (r.readNextRequest req).1 =
      if r.currentRequest ≥ r.parsedBody.Requests.length then r
      else { r with currentRequest := r.currentRequest + 1 } := by
  unfold jsonRequestReader.readNextRequest
  by_cases h : r.currentRequest ≥ r.parsedBody.Requests.length
  · simp only [h, dite_true, if_true]
  · simp only [h, dite_false, if_false]
    split
    · rfl
    · split
      · rfl
      · split <;> rfl

theorem json_read_eof (r : jsonRequestReader) (req : Request) :
    r.currentRequest ≥ r.parsedBody.Requests.length ↔
      (r.readNextRequest req).2.2 = .failed .EOF := by
  unfold jsonRequestReader.readNextRequest
  by_cases h : r.currentRequest ≥ r.parsedBody.Requests.length
  · simp only [h, dite_true]
  · simp only [h, dite_false, false_iff]
    split
    · simp
    · split
      · simp
      · split <;> simp

theorem multipart_read_reader (canon : Str → Str) (r : multipartRequestReader) (req : Request) :
    (r.readNextRequest canon req).1 = { mpr := { r.mpr with parts := r.mpr.parts.tail } } := by
  unfold multipartRequestReader.readNextRequest
  split
  · rename_i h
    cases r with
    | mk mpr =>
      cases mpr with
      | mk parts final =>
        simp only at h
        subst h
        rfl
  · rename_i part rest h
    simp only [h, List.tail_cons]
    split
    · rfl
    · split
      · rfl
      · split <;> rfl

theorem multipart_read_ok (canon : Str → Str) (r : multipartRequestReader) (req : Request)
    (h : (r.readNextRequest canon req).2.2 = .ok) : r.mpr.parts ≠ [] := by
  intro hp
  unfold multipartRequestReader.readNextRequest at h
  rw [hp] at h
  simp at h

/-- A successful read uses up one of the remaining sub-requests. -/
theorem read_ok_remaining (canon : Str → Str) (rr rr1 : requestReader) (req req1 : Request)
    (h : rr.readNextRequest canon req = (rr1, req1, .ok)) : rr1.remaining + 1 = rr.remaining := by
  cases rr with
  | multipart r =>
    have h1 := multipart_read_reader canon r req
    have h2 := multipart_read_ok canon r req
    rcases hr : r.readNextRequest canon req with ⟨r1, q, st⟩
    rw [hr] at h1 h2
    simp only [requestReader.readNextRequest, hr, Prod.mk.injEq] at h
    obtain ⟨rfl, -, rfl⟩ := h
    simp only at h1
    subst h1
    have hne := h2 rfl
    simp only [requestReader.remaining]
    cases hp : r.mpr.parts with
    | nil => exact absurd hp hne
    | cons p ps => simp
  | json r =>
    have h1 := json_read_reader r req
    have h2 := json_read_eof r req
    rcases hr : r.readNextRequest req with ⟨r1, q, st⟩
    rw [hr] at h1 h2
    simp only [requestReader.readNextRequest, hr, Prod.mk.injEq] at h
    obtain ⟨rfl, -, rfl⟩ := h
    simp only at h1 h2
    have hlt : ¬ r.currentRequest ≥ r.parsedBody.Requests.length := by
      intro hge
      have := h2.1 hge
      cases this
    rw [if_neg hlt] at h1
    subst h1
    simp only [requestReader.remaining]
    omega

/-- With fuel for one more iteration than the reader has sub-requests left, the
loop never runs out of fuel. -/
theorem handleLoop_fuel (env : Env) (fuel : Nat) (b : Batch) (h : b.rr.remaining < fuel) :
    (handleLoop env fuel b).2 ≠ some .outOfFuel := by
  induction fuel generalizing b with
  | zero => omega
  | succ fuel ih =>
    unfold handleLoop
    rcases hr : b.rr.readNextRequest env.canon (Request.Reset {}) with ⟨rr1, req, st⟩
    cases st with
    | failed err =>
      cases err <;> simp
    | panicked => simp
    | ok =>
      simp only []
      have hrem := read_ok_remaining env.canon b.rr rr1 _ req hr
      have hd := dispatch_head env b rr1 req
      have hrr := dispatch_rr env b rr1 req
      rcases hdis : dispatch env b rr1 req with ⟨b1, ex⟩
      rw [hdis] at hd hrr
      cases ex with
      | some ex =>
        simp only []
        rcases hd with ⟨h1 | h1, _⟩ | ⟨h1, _, _⟩ <;> cases h1 <;> simp
      | none =>
        simp only []
        apply ih
        simp only at hrr
        rw [hrr]
        omega

/-! ## `HandleMani` -/

/-- Once the writer is open, `HandleMani` is the loop followed by its end. -/
theorem HandleMani_of_opened (env : Env) (ctx : RequestCtx) (b0 : Batch)
    (h : opened env ctx = some b0) :
    HandleMani env ctx = finish env (handleLoop env (b0.rr.remaining + 1) b0) := by
  unfold opened at h
  unfold HandleMani
  cases hp : parseRequest env ctx with
  | error e => simp [hp] at h
  | ok p =>
    obtain ⟨rr, resType⟩ := p
    simp only [hp] at h ⊢
    rcases hs : selectWriter env ctx rr resType with ⟨ctx1, ow⟩
    simp only [hs] at h ⊢
    cases ow with
    | none => simp at h
    | some w =>
      simp only at h ⊢
      rcases ho : w.Open env ctx1 with ⟨ctx2, e⟩
      simp only [ho] at h ⊢
      cases e with
      | some e => simp at h
      | none =>
        simp only [Option.some.injEq] at h
        subst h
        rfl

/-- The handler never ends for want of fuel. -/
theorem HandleMani_exit_ne_outOfFuel (env : Env) (ctx : RequestCtx) :
    (HandleMani env ctx).exit ≠ .outOfFuel := by
  cases ho : opened env ctx with
  | some b0 =>
    rw [HandleMani_of_opened env ctx b0 ho]
    have hf := handleLoop_fuel env (b0.rr.remaining + 1) b0 (Nat.lt_succ_self _)
    rcases hl : handleLoop env (b0.rr.remaining + 1) b0 with ⟨b, ex⟩
    rw [hl] at hf
    cases ex with
    | none =>
      simp only [finish]
      split <;> simp
    | some ex =>
      cases ex <;> simp_all [finish]
  | none =>
    unfold opened at ho
    unfold HandleMani
    cases hp : parseRequest env ctx with
    | error e => simp
    | ok p =>
      obtain ⟨rr, resType⟩ := p
      simp only [hp] at ho ⊢
      rcases hs : selectWriter env ctx rr resType with ⟨ctx1, ow⟩
      simp only [hs] at ho ⊢
      cases ow with
      | none => simp
      | some w =>
        simp only at ho ⊢
        rcases hopen : w.Open env ctx1 with ⟨ctx2, e⟩
        simp only [hopen] at ho ⊢
        cases e with
        | some e => simp
        | none => simp at ho

/-- Once the writer is open, the content type of the response is the one it
had right after `Open`. -/
theorem HandleMani_contentType_of_opened (env : Env) (ctx : RequestCtx) (b0 : Batch)
    (h : opened env ctx = some b0) :
    (HandleMani env ctx).ctx.contentType = b0.ctx.contentType := by
  rw [HandleMani_of_opened env ctx b0 h]
  have hh := (handleLoop_head env (b0.rr.remaining + 1) b0).1
  rcases hl : handleLoop env (b0.rr.remaining + 1) b0 with ⟨b, ex⟩
  rw [hl] at hh
  simp only at hh
  cases ex with
  | none =>
    have hc := Close_head env b.resWriter b.ctx
    simp only [finish]
    rcases hcl : b.resWriter.Close env b.ctx with ⟨ctx3, e⟩
    rw [hcl] at hc
    cases e <;> exact hc.2.1.symm.trans hh
  | some ex =>
    cases ex <;> exact hh

/-- C10 (counterexample): in a multipart batch of two parts of which the
second has no method header, the status code is 200 right after `Open` and 400
in the response. -/
theorem status_changes_after_open :
    (opened (sampleEnv (.ok twoRequests) { parts := [goodPart, noMethodPart], final := .EOF } refusing)
        multipartCtx).map (fun b => b.ctx.statusCode) = some 200 ∧
      (HandleMani (sampleEnv (.ok twoRequests) { parts := [goodPart, noMethodPart], final := .EOF }
        refusing) multipartCtx).ctx.statusCode = 400 ∧
      (HandleMani (sampleEnv (.ok twoRequests) { parts := [goodPart, noMethodPart], final := .EOF }
        refusing) multipartCtx).sent.length = 1 := by
  decide

/-- C10 (amended): once the response writer has been opened, nothing changes
the response's Content-Type, and neither a dispatcher error, which is written
as an element, nor a failing `WriteNextError` changes the status code: the
status code is the one right after `Open` when the handler completes or
returns after a failed `WriteNextError`; it is 400 when a read fails, and 500
when `WriteNextResponse` or `Close` fails or the handler recovers from a
panic. -/
theorem status_and_content_type_after_open (env : Env) (ctx : RequestCtx) (b0 : Batch)
    (h : opened env ctx = some b0) :
    (HandleMani env ctx).ctx.contentType = b0.ctx.contentType ∧
      (((HandleMani env ctx).exit = .completed ∨ (HandleMani env ctx).exit = .writeErrorFailed) ∧
          (HandleMani env ctx).ctx.statusCode = b0.ctx.statusCode ∨
        (HandleMani env ctx).exit = .readFailed ∧ (HandleMani env ctx).ctx.statusCode = 400 ∨
        ((HandleMani env ctx).exit = .writeResponseFailed ∨ (HandleMani env ctx).exit = .closeFailed ∨
            (HandleMani env ctx).exit = .recovered) ∧
          (HandleMani env ctx).ctx.statusCode = 500) := by
  rw [HandleMani_of_opened env ctx b0 h]
  have hf := handleLoop_fuel env (b0.rr.remaining + 1) b0 (Nat.lt_succ_self _)
  have hh := handleLoop_head env (b0.rr.remaining + 1) b0
  rcases hl : handleLoop env (b0.rr.remaining + 1) b0 with ⟨b, ex⟩
  rw [hl] at hf hh
  simp only at hf hh
  obtain ⟨hct, hst⟩ := hh
  cases ex with
  | none =>
    have hc := Close_head env b.resWriter b.ctx
    simp only [finish]
    rcases hcl : b.resWriter.Close env b.ctx with ⟨ctx3, e⟩
    rw [hcl] at hc
    rcases hst with ⟨_, hs⟩ | ⟨h1, _⟩ | ⟨h1, _⟩
    · cases e with
      | none =>
        exact ⟨hc.2.1.symm.trans hct, Or.inl ⟨Or.inl rfl, hc.1.symm.trans hs⟩⟩
      | some e =>
        exact ⟨hc.2.1.symm.trans hct, Or.inr (Or.inr ⟨Or.inr (Or.inl rfl), rfl⟩)⟩
    · cases h1
    · cases h1
  | some ex =>
    rcases hst with ⟨h1 | h1 | h1 | h1, hs⟩ | ⟨h1, hs⟩ | ⟨h1, hs⟩
    · cases h1
    · cases h1
      exact ⟨hct, Or.inl ⟨Or.inr rfl, hs⟩⟩
    · cases h1
      exact ⟨hct, Or.inr (Or.inr ⟨Or.inr (Or.inr rfl), rfl⟩)⟩
    · exact absurd h1 hf
    · cases h1
      exact ⟨hct, Or.inr (Or.inl ⟨rfl, hs⟩)⟩
    · cases h1
      exact ⟨hct, Or.inr (Or.inr ⟨Or.inl rfl, hs⟩)⟩

/-- C10 (witness): a JSON batch of two sub-requests whose dispatches both
fail. -/
theorem status_and_content_type_after_open_witness :
    (HandleMani (sampleEnv (.ok twoRequests) noParts refusing) jsonCtx).ctx.contentType =
        applicationJson ∧
      (HandleMani (sampleEnv (.ok twoRequests) noParts refusing) jsonCtx).exit = .completed ∧
      (HandleMani (sampleEnv (.ok twoRequests) noParts refusing) jsonCtx).ctx.statusCode = 200 := by
  have h := status_and_content_type_after_open (sampleEnv (.ok twoRequests) noParts refusing) jsonCtx
    { rr := .json { parsedBody := twoRequests, currentRequest := 0 },
      resWriter := .json { numResponses := 2, responseNum := 0 },
      ctx := { jsonCtx with contentType := applicationJson, body := jsonHead, writes := 1 },
      sent := [], calls := [.Open] } (by decide)
  refine ⟨h.1, by decide, by decide⟩

/-! ## Selecting reader and writer -/

theorem prefixes_exclusive (s : Str) (h : HasPrefix s multipartMixed = true) :
    HasPrefix s applicationJson = false := by
  cases hj : HasPrefix s applicationJson with
  | false => rfl
  | true =>
    obtain ⟨r1, h1⟩ := (HasPrefix_iff _ _).1 h
    obtain ⟨r2, h2⟩ := (HasPrefix_iff _ _).1 hj
    rw [h1] at h2
    simp [multipartMixed, applicationJson] at h2

/-- What a successful `parseRequest` returns: reader and response type of the
kind the inbound content type names. -/
theorem parseRequest_ok (env : Env) (ctx : RequestCtx) (rr : requestReader) (resType : responseType)
    (h : parseRequest env ctx = .ok (rr, resType)) :
    (HasPrefix ctx.reqContentType multipartMixed = true ∧ resType = .responseTypeMultipart ∧
        ∃ r, rr = .multipart r) ∨
      (HasPrefix ctx.reqContentType multipartMixed = false ∧
        HasPrefix ctx.reqContentType applicationJson = true ∧ resType = .responseTypeJson ∧
        ∃ r, rr = .json r) := by
  unfold parseRequest at h
  simp only at h
  by_cases hm : HasPrefix ctx.reqContentType multipartMixed = true
  · left
    rw [if_pos hm] at h
    unfold parseMultipartRequest at h
    cases hb : multipartBoundary ctx.reqContentType with
    | error e => simp [hb] at h
    | ok bd =>
      simp only [hb, Except.ok.injEq, Prod.mk.injEq] at h
      exact ⟨hm, h.2.symm, _, h.1.symm⟩
  · right
    rw [if_neg hm] at h
    by_cases hj : HasPrefix ctx.reqContentType applicationJson = true
    · rw [if_pos hj] at h
      unfold parseJsonRequest at h
      cases hi : jsonRequestReader.init env ctx.reqBody with
      | error e => simp [hi] at h
      | ok jr =>
        simp only [hi, Except.ok.injEq, Prod.mk.injEq] at h
        exact ⟨by simpa using hm, hj, h.2.symm, _, h.1.symm⟩
    · rw [if_neg hj] at h
      cases h

/-- C4 (counterexample): for the inbound content type `text/plain` the body of
the response is not the text `unsupported content type: text/plain`. -/
theorem unsupported_body_is_wrapped :
    HasPrefix "text/plain".toList multipartMixed = false ∧
      HasPrefix "text/plain".toList applicationJson = false ∧
      (HandleMani (sampleEnv (.ok twoRequests) noParts refusing)
          (sampleCtx "text/plain".toList [])).ctx.body ≠
        "unsupported content type: text/plain".toList ∧
      (HandleMani (sampleEnv (.ok twoRequests) noParts refusing)
          (sampleCtx "text/plain".toList [])).ctx.body =
        "Failed to parse request: unsupported content type: text/plain.".toList := by
  decide

/-- C4 (amended): for an inbound content type that starts with neither
`multipart/mixed` nor `application/json`, `HandleMani` answers with status 400
and the body `Failed to parse request: unsupported content type: ` followed by
the content type and a full stop; no call is made on a response writer, no
outbound call is made, and the response content type is left as it was. -/
theorem unsupported_content_type (env : Env) (ctx : RequestCtx)
    (h1 : HasPrefix ctx.reqContentType multipartMixed = false)
    (h2 : HasPrefix ctx.reqContentType applicationJson = false) :
    (HandleMani env ctx).ctx.statusCode = 400 ∧
      (HandleMani env ctx).ctx.body =
        "Failed to parse request: ".toList ++
          ("unsupported content type: ".toList ++ ctx.reqContentType) ++ ".".toList ∧
      (HandleMani env ctx).calls = [] ∧ (HandleMani env ctx).sent = [] ∧
      (HandleMani env ctx).exit = .parseFailed ∧
      (HandleMani env ctx).ctx.contentType = ctx.contentType := by
  have hp : parseRequest env ctx =
      .error ("unsupported content type: ".toList ++ ctx.reqContentType) := by
    unfold parseRequest
    simp only [h1, h2, Bool.false_eq_true, if_false]
  unfold HandleMani
  rw [hp]
  exact ⟨rfl, rfl, rfl, rfl, rfl, rfl⟩

/-- C4 (witness): the inbound content type `text/plain`. -/
theorem unsupported_content_type_witness :
    (HandleMani (sampleEnv (.ok twoRequests) noParts refusing)
        (sampleCtx "text/plain".toList [])).ctx.statusCode = 400 ∧
      (HandleMani (sampleEnv (.ok twoRequests) noParts refusing)
        (sampleCtx "text/plain".toList [])).calls = [] :=
  have h := unsupported_content_type (sampleEnv (.ok twoRequests) noParts refusing)
    (sampleCtx "text/plain".toList []) (by decide) (by decide)
  ⟨h.1, h.2.2.1⟩

/-- C5: when the head of the inbound envelope parses, the response has the
format of the request.  For an inbound content type that starts with
`multipart/mixed` the reader is a multipart reader, the writer a multipart
writer, and the response content type is set to `multipart/mixed; boundary=`
followed by the boundary of that writer; for one that starts with
`application/json` the reader is a JSON reader, the writer a JSON writer, and
the response content type is set to `application/json`.  The response keeps
the content type so set unless `Open` fails. -/
theorem response_format_mirrors_request (env : Env) (ctx : RequestCtx) (rr : requestReader)
    (resType : responseType) (h : parseRequest env ctx = .ok (rr, resType)) :
    (HasPrefix ctx.reqContentType multipartMixed = true →
        (∃ r, rr = .multipart r) ∧
          ∃ w : multipartResponseWriter,
            selectWriter env ctx rr resType =
              (ctx.SetContentType ("multipart/mixed; boundary=".toList ++ w.resWriter.boundary),
                some (.multipart w))) ∧
      (HasPrefix ctx.reqContentType applicationJson = true →
        (∃ r, rr = .json r) ∧
          ∃ w : jsonResponseWriter,
            selectWriter env ctx rr resType =
              (ctx.SetContentType applicationJson, some (.json w))) ∧
      ((HandleMani env ctx).exit ≠ .openFailed →
        (HandleMani env ctx).ctx.contentType = (selectWriter env ctx rr resType).1.contentType) := by
  have hsel : ∃ ctx1 w, selectWriter env ctx rr resType = (ctx1, some w) := by
    rcases parseRequest_ok env ctx rr resType h with ⟨_, rfl, r, rfl⟩ | ⟨_, _, rfl, r, rfl⟩
    · exact ⟨_, _, rfl⟩
    · exact ⟨_, _, rfl⟩
  refine ⟨?_, ?_, ?_⟩
  · intro hm
    rcases parseRequest_ok env ctx rr resType h with ⟨_, rfl, r, rfl⟩ | ⟨hn, _, _, _, _⟩
    · exact ⟨⟨r, rfl⟩, ⟨{ resWriter := { boundary := env.boundary, lastpart := false } }, rfl⟩⟩
    · rw [hm] at hn
      cases hn
  · intro hj
    rcases parseRequest_ok env ctx rr resType h with ⟨hm, _, _, _⟩ | ⟨_, _, rfl, r, rfl⟩
    · rw [prefixes_exclusive _ hm] at hj
      cases hj
    · exact ⟨⟨r, rfl⟩, ⟨_, rfl⟩⟩
  · intro hne
    obtain ⟨ctx1, w, hs⟩ := hsel
    rw [hs]
    have hoh := Open_head env w ctx1
    rcases hopen : w.Open env ctx1 with ⟨ctx2, e⟩
    rw [hopen] at hoh
    cases e with
    | some e =>
      exfalso
      apply hne
      unfold HandleMani
      simp only [h, hs, hopen]
    | none =>
      have hop : opened env ctx =
          some { rr := rr, resWriter := w, ctx := ctx2, sent := [], calls := [.Open] } := by
        unfold opened
        simp only [h, hs, hopen]
      rw [HandleMani_contentType_of_opened env ctx _ hop]
      exact hoh.2.1.symm

/-- C5 (witness): an inbound multipart request. -/
theorem response_format_mirrors_request_witness :
    (HandleMani (sampleEnv (.ok twoRequests) { parts := [goodPart], final := .EOF } refusing)
        multipartCtx).ctx.contentType = "multipart/mixed; boundary=RESP".toList :=
  ((response_format_mirrors_request
    (sampleEnv (.ok twoRequests) { parts := [goodPart], final := .EOF } refusing) multipartCtx
    (.multipart { mpr := { parts := [goodPart], final := .EOF } }) .responseTypeMultipart
    (by decide)).2.2 (by decide)).trans (by decide)

/-! ## The JSON reader -/

theorem addHeaders_ok (hs : List (List Str)) (req : Request)
    (hh : ∀ h ∈ hs, 2 ≤ h.length) :
    (addHeaders hs req).2 = false ∧ (addHeaders hs req).1.method = req.method ∧
      (addHeaders hs req).1.uri = req.uri ∧ (addHeaders hs req).1.body = req.body := by
  induction hs generalizing req with
  | nil => exact ⟨rfl, rfl, rfl, rfl⟩
  | cons h hs ih =>
    have h2 := hh h (List.mem_cons_self _ _)
    match h, h2 with
    | k :: v :: t, _ =>
      simp only [addHeaders]
      exact ih (req.Add k v) (fun x hx => hh x (List.mem_cons_of_mem _ hx))

/-- A read of an entry whose header entries have two strings each: it
succeeds, the reader moves on by one, method and URL are those of the entry,
and the body is chosen from the entry. -/
theorem json_read_entry (r : jsonRequestReader) (req : Request)
    (hk : r.currentRequest < r.parsedBody.Requests.length)
    (hh : ∀ h ∈ (r.parsedBody.Requests.get ⟨r.currentRequest, hk⟩).Headers, 2 ≤ h.length) :
    (r.readNextRequest req).1 = { r with currentRequest := r.currentRequest + 1 } ∧
      (r.readNextRequest req).2.2 = .ok ∧
      (r.readNextRequest req).2.1.method =
        (r.parsedBody.Requests.get ⟨r.currentRequest, hk⟩).Method ∧
      (r.readNextRequest req).2.1.uri = (r.parsedBody.Requests.get ⟨r.currentRequest, hk⟩).URL ∧
      (r.readNextRequest req).2.1.body =
        match (r.parsedBody.Requests.get ⟨r.currentRequest, hk⟩).Body.Bytes with
        | some b => b
        | none =>
          match (r.parsedBody.Requests.get ⟨r.currentRequest, hk⟩).Body.JSON with
          | some j => j
          | none => req.body := by
  have hge : ¬ r.currentRequest ≥ r.parsedBody.Requests.length := Nat.not_le.2 hk
  have ha := addHeaders_ok (r.parsedBody.Requests.get ⟨r.currentRequest, hk⟩).Headers
    ((req.SetMethod (r.parsedBody.Requests.get ⟨r.currentRequest, hk⟩).Method).SetRequestURI
      (r.parsedBody.Requests.get ⟨r.currentRequest, hk⟩).URL) hh
  unfold jsonRequestReader.readNextRequest
  simp only [hge, dite_false]
  rcases hadd : addHeaders (r.parsedBody.Requests.get ⟨r.currentRequest, hk⟩).Headers
    ((req.SetMethod (r.parsedBody.Requests.get ⟨r.currentRequest, hk⟩).Method).SetRequestURI
      (r.parsedBody.Requests.get ⟨r.currentRequest, hk⟩).URL) with ⟨req1, flag⟩
  rw [hadd] at ha
  obtain ⟨hf, hm, hu, hb⟩ := ha
  simp only at hf hm hu hb
  subst hf
  simp only []
  cases hB : (r.parsedBody.Requests.get ⟨r.currentRequest, hk⟩).Body.Bytes with
  | some b => exact ⟨rfl, rfl, hm, hu, rfl⟩
  | none =>
    cases hJ : (r.parsedBody.Requests.get ⟨r.currentRequest, hk⟩).Body.JSON with
    | some j => exact ⟨rfl, rfl, hm, hu, rfl⟩
    | none => exact ⟨rfl, rfl, hm, hu, hb⟩

theorem json_read_at_end (r : jsonRequestReader) (req : Request)
    (hk : r.parsedBody.Requests.length ≤ r.currentRequest) :
    r.readNextRequest req = (r, req, .failed .EOF) := by
  unfold jsonRequestReader.readNextRequest
  simp only [ge_iff_le, hk, dite_true]

/-- C7 (counterexample): an entry with `body.bytes` present and a header entry
of one string.  `readNextRequest` panics in the header loop, before the body
is looked at, and the body of the sub-request stays empty. -/
theorem json_body_not_set_on_short_header :
    shortHeaderRequest.Body.Bytes = some "x".toList ∧
      (jsonRequestReader.readNextRequest
          { parsedBody := { Requests := [shortHeaderRequest] }, currentRequest := 0 }
          (Request.Reset {})).2.2 = .panicked ∧
      (jsonRequestReader.readNextRequest
          { parsedBody := { Requests := [shortHeaderRequest] }, currentRequest := 0 }
          (Request.Reset {})).2.1.body = [] := by
  decide

/-- C7 (amended): for every entry of a decoded JSON envelope whose header
entries have at least two strings each, `readNextRequest` on a reset buffer
succeeds and sets the body of the sub-request as follows: if `body.bytes` is
present the body is those bytes, also when `body.json` is present; else if
`body.json` is present the body is its raw text; else the body is empty. -/
theorem json_body_selection (r : jsonRequestReader) (req0 : Request)
    (hk : r.currentRequest < r.parsedBody.Requests.length)
    (hh : ∀ h ∈ (r.parsedBody.Requests.get ⟨r.currentRequest, hk⟩).Headers, 2 ≤ h.length) :
    (r.readNextRequest (Request.Reset req0)).2.2 = .ok ∧
      (∀ b, (r.parsedBody.Requests.get ⟨r.currentRequest, hk⟩).Body.Bytes = some b →
        (r.readNextRequest (Request.Reset req0)).2.1.body = b) ∧
      ((r.parsedBody.Requests.get ⟨r.currentRequest, hk⟩).Body.Bytes = none →
        ∀ j, (r.parsedBody.Requests.get ⟨r.currentRequest, hk⟩).Body.JSON = some j →
          (r.readNextRequest (Request.Reset req0)).2.1.body = j) ∧
      ((r.parsedBody.Requests.get ⟨r.currentRequest, hk⟩).Body.Bytes = none →
        (r.parsedBody.Requests.get ⟨r.currentRequest, hk⟩).Body.JSON = none →
          (r.readNextRequest (Request.Reset req0)).2.1.body = []) := by
  obtain ⟨-, hst, -, -, hb⟩ := json_read_entry r (Request.Reset req0) hk hh
  refine ⟨hst, ?_, ?_, ?_⟩
  · intro b hB
    rw [hb, hB]
  · intro hB j hJ
    rw [hb, hB, hJ]
  · intro hB hJ
    rw [hb, hB, hJ]
    rfl

/-- C7 (witness): an entry with both `body.bytes` and `body.json`; the body is
the bytes. -/
theorem json_body_selection_witness :
    (jsonRequestReader.readNextRequest
        { parsedBody := { Requests := [bothBodiesRequest] }, currentRequest := 0 }
        (Request.Reset {})).2.1.body = "raw".toList :=
  (json_body_selection { parsedBody := { Requests := [bothBodiesRequest] }, currentRequest := 0 } {}
    (by decide) (by decide)).2.1 "raw".toList (by decide)

theorem readerAfter_eq (doc : jsonRequestBody) (bufs : Nat → Request) (k : Nat) :
    readerAfter { parsedBody := doc, currentRequest := 0 } bufs k =
      { parsedBody := doc, currentRequest := min k doc.Requests.length } := by
  induction k with
  | zero => simp [readerAfter]
  | succ k ih =>
    simp only [readerAfter, ih, json_read_reader]
    by_cases h : k < doc.Requests.length
    · have h1 : min k doc.Requests.length = k := Nat.min_eq_left (Nat.le_of_lt h)
      have h2 : min (k + 1) doc.Requests.length = k + 1 := Nat.min_eq_left h
      have h3 : ¬ k ≥ doc.Requests.length := Nat.not_le.2 h
      simp only [h1, h2, h3, if_false]
    · have hle : doc.Requests.length ≤ k := Nat.not_lt.1 h
      have h1 : min k doc.Requests.length = doc.Requests.length := Nat.min_eq_right hle
      have h2 : min (k + 1) doc.Requests.length = doc.Requests.length :=
        Nat.min_eq_right (Nat.le_succ_of_le hle)
      simp only [h1, h2, ge_iff_le, le_refl, if_true]

/-- C9 (counterexample): a decoded envelope with one entry, whose header entry
has one string.  The first call of `readNextRequest` panics. -/
theorem json_first_read_panics :
    jsonRequestReader.init (sampleEnv (.ok { Requests := [shortHeaderRequest] }) noParts refusing) [] =
        .ok { parsedBody := { Requests := [shortHeaderRequest] }, currentRequest := 0 } ∧
      (jsonRequestReader.readNextRequest
          { parsedBody := { Requests := [shortHeaderRequest] }, currentRequest := 0 }
          (Request.Reset {})).2.2 = .panicked := by
  decide

/-- C9 (amended): for every successfully decoded JSON envelope with N entries
whose header entries have at least two strings each, the first N calls of
`readNextRequest` succeed and the call numbered k (from 0) yields method and
URL of entry k; every later call returns `io.EOF` and changes neither the
request buffer nor the reader. -/
theorem json_reader_sequence (env : Env) (body : Str) (r0 : jsonRequestReader)
    (bufs : Nat → Request) (hinit : jsonRequestReader.init env body = .ok r0)
    (hh : ∀ e ∈ r0.parsedBody.Requests, ∀ h ∈ e.Headers, 2 ≤ h.length) :
    (∀ (k : Nat) (hk : k < r0.parsedBody.Requests.length),
        ((readerAfter r0 bufs k).readNextRequest (bufs k)).2.2 = .ok ∧
          ((readerAfter r0 bufs k).readNextRequest (bufs k)).2.1.method =
            (r0.parsedBody.Requests.get ⟨k, hk⟩).Method ∧
          ((readerAfter r0 bufs k).readNextRequest (bufs k)).2.1.uri =
            (r0.parsedBody.Requests.get ⟨k, hk⟩).URL) ∧
      (∀ k : Nat, r0.parsedBody.Requests.length ≤ k →
        (readerAfter r0 bufs k).readNextRequest (bufs k) =
          (readerAfter r0 bufs k, bufs k, .failed .EOF)) := by
  have hr0 : r0 = { parsedBody := r0.parsedBody, currentRequest := 0 } := by
    unfold jsonRequestReader.init at hinit
    cases hd : env.decode body with
    | error e => simp [hd] at hinit
    | ok doc =>
      simp only [hd, Except.ok.injEq] at hinit
      subst hinit
      rfl
  constructor
  · intro k hk
    have hafter : readerAfter r0 bufs k = { parsedBody := r0.parsedBody, currentRequest := k } := by
      conv_lhs => rw [hr0]
      rw [readerAfter_eq, Nat.min_eq_left (Nat.le_of_lt hk)]
    rw [hafter]
    have := json_read_entry { parsedBody := r0.parsedBody, currentRequest := k } (bufs k) hk
      (hh _ (List.get_mem _ _ _))
    exact ⟨this.2.1, this.2.2.1, this.2.2.2.1⟩
  · intro k hk
    have hafter : readerAfter r0 bufs k =
        { parsedBody := r0.parsedBody, currentRequest := r0.parsedBody.Requests.length } := by
      conv_lhs => rw [hr0]
      rw [readerAfter_eq, Nat.min_eq_right hk]
    rw [hafter]
    exact json_read_at_end _ _ (Nat.le_refl _)

/-- C9 (witness): the envelope of two sub-requests; the call after the second
returns `io.EOF`. -/
theorem json_reader_sequence_witness :
    (readerAfter { parsedBody := twoRequests, currentRequest := 0 } (fun _ => {}) 2).readNextRequest {} =
      (readerAfter { parsedBody := twoRequests, currentRequest := 0 } (fun _ => {}) 2, {},
        .failed .EOF) :=
  (json_reader_sequence (sampleEnv (.ok twoRequests) noParts refusing) []
    { parsedBody := twoRequests, currentRequest := 0 } (fun _ => {}) (by decide) (by decide)).2 2
    (by decide)

/-! ## The multipart reader -/

/-- The inner loop of `copyPartHeaders` for one key: one call of `Set` for each
value, in order; nothing else of the request changes. -/
theorem setAll_eq (k : Str) (vs : List Str) (req : Request) :
    vs.foldl (fun r vv => r.Set k vv) req =
      { req with header := req.header ++ vs.map (HeaderCall.Set k) } := by
  induction vs generalizing req with
  | nil => simp
  | cons v vs ih =>
    rw [List.foldl_cons, ih]
    simp only [Request.Set, List.map_cons, List.append_assoc, List.singleton_append]

/-- The loop `copyPartHeaders`: one call of `Set` for every value of every
entry of the part header, in order; nothing else of the request changes. -/
theorem copyPartHeaders_eq (h : MIMEHeader) (req : Request) :
    copyPartHeaders h req = { req with header := req.header ++ setCalls h } := by
  induction h generalizing req with
  | nil => simp [copyPartHeaders, setCalls]
  | cons e rest ih =>
    obtain ⟨k, vs⟩ := e
    simp only [copyPartHeaders, ih, setAll_eq, setCalls, List.map_cons, List.flatten_cons,
      List.append_assoc]

theorem mem_setCalls (h : MIMEHeader) (c : HeaderCall) :
    c ∈ setCalls h ↔ ∃ e ∈ h, ∃ v ∈ e.2, c = .Set e.1 v := by
  unfold setCalls
  simp only [List.mem_flatten, List.mem_map]
  constructor
  · rintro ⟨l, ⟨e, he, rfl⟩, hc⟩
    obtain ⟨v, hv, rfl⟩ := List.mem_map.1 hc
    exact ⟨e, he, v, hv, rfl⟩
  · rintro ⟨e, he, v, hv, rfl⟩
    exact ⟨_, ⟨e, he, rfl⟩, List.mem_map.2 ⟨v, hv, rfl⟩⟩

theorem Del_no_key (canon : Str → Str) (h : MIMEHeader) (key : Str) (e : Str × List Str)
    (he : e ∈ MIMEHeader.Del canon h key) : e.1 ≠ canon key ∧ e ∈ h := by
  unfold MIMEHeader.Del at he
  rw [List.mem_filter] at he
  exact ⟨by simpa using he.2, he.1⟩

theorem mem_Del (canon : Str → Str) (h : MIMEHeader) (key : Str) (e : Str × List Str)
    (he : e ∈ h) (hne : e.1 ≠ canon key) : e ∈ MIMEHeader.Del canon h key := by
  unfold MIMEHeader.Del
  rw [List.mem_filter]
  exact ⟨he, by simpa using hne⟩

theorem lookup_filter_ne (h : MIMEHeader) (k k1 : Str) (hne : k ≠ k1) :
    (h.filter (fun e => e.1 != k1)).lookup k = h.lookup k := by
  induction h with
  | nil => rfl
  | cons e rest ih =>
    obtain ⟨a, vs⟩ := e
    by_cases ha : a = k1
    · subst ha
      have hk : (k == a) = false := by simpa using hne
      simp [List.filter, List.lookup, hk, ih]
    · have : (a != k1) = true := by simpa using ha
      simp only [List.filter, this, List.lookup]
      split
      · rfl
      · exact ih

theorem Get_Del_ne (canon : Str → Str) (h : MIMEHeader) (key key1 : Str)
    (hne : canon key ≠ canon key1) :
    MIMEHeader.Get canon (MIMEHeader.Del canon h key1) key = MIMEHeader.Get canon h key := by
  unfold MIMEHeader.Get MIMEHeader.Del
  rw [lookup_filter_ne h (canon key) (canon key1) hne]

/-- C6 (counterexample): a part that has both an `x-mani-url` header, with an
empty value, and an `x-mani-method` header: the read fails with
`part missing url header`.  And a part with both headers whose body breaks
off: the read fails as well.  And a part with both headers and a
`Content-Length` header: the read succeeds and hands the header to
`req.Header.Set`, after which (in the stand-in for `fasthttp`, which manages
this header itself) the sub-request carries no `Content-Length` header. -/
theorem multipart_empty_url_value_fails :
    emptyUrlPart.Header.lookup (canonKey urlHeader) = some [[]] ∧
      emptyUrlPart.Header.lookup (canonKey methodHeader) = some ["GET".toList] ∧
      (multipartRequestReader.readNextRequest canonKey
          { mpr := { parts := [emptyUrlPart], final := .EOF } } (Request.Reset {})).2.2 =
        .failed (.other "part missing url header".toList) ∧
      truncatedPart.Header.lookup (canonKey urlHeader) = some ["http://a/".toList] ∧
      truncatedPart.Header.lookup (canonKey methodHeader) = some ["POST".toList] ∧
      (multipartRequestReader.readNextRequest canonKey
          { mpr := { parts := [truncatedPart], final := .EOF } } (Request.Reset {})).2.2 =
        .failed (.other "unexpected EOF".toList) ∧
      contentLengthPart.Header.lookup (canonKey "content-length".toList) = some ["5".toList] ∧
      (multipartRequestReader.readNextRequest canonKey
          { mpr := { parts := [contentLengthPart], final := .EOF } } (Request.Reset {})).2.2 = .ok ∧
      (multipartRequestReader.readNextRequest canonKey
          { mpr := { parts := [contentLengthPart], final := .EOF } } (Request.Reset {})).2.1.header =
        [.Set "Content-Length".toList "5".toList] ∧
      sampleVisitAll (multipartRequestReader.readNextRequest canonKey
          { mpr := { parts := [contentLengthPart], final := .EOF } } (Request.Reset {})).2.1.header =
        [] := by
  decide

/-- C6 (amended): for every multipart part read by `readNextRequest` into a
reset buffer: if the part has no `x-mani-url` header, or the first value of
that header is empty, the read fails with `part missing url header`; otherwise
if it has no `x-mani-method` header, or the first value of that header is
empty, the read fails with `part missing method header`; otherwise, when the
body of the part can be read, the read succeeds, URL and method of the
sub-request are the first values of the two headers, its body is the body of
the part, and the calls made on its header are exactly one
`req.Header.Set(key, value)` for every value of every header of the part other
than `x-mani-url` and `x-mani-method`, in the order of the part header: none
of them names one of these two keys, and every value of every other key of
the part is handed over. -/
theorem multipart_read_part (canon : Str → Str) (r : multipartRequestReader) (part : Part)
    (rest : List Part) (req0 : Request) (hc : canon urlHeader ≠ canon methodHeader)
    (hr : r.mpr.parts = part :: rest) :
    (MIMEHeader.Get canon part.Header urlHeader = [] →
        (r.readNextRequest canon (Request.Reset req0)).2.2 =
          .failed (.other "part missing url header".toList)) ∧
      (MIMEHeader.Get canon part.Header urlHeader ≠ [] →
        MIMEHeader.Get canon part.Header methodHeader = [] →
        (r.readNextRequest canon (Request.Reset req0)).2.2 =
          .failed (.other "part missing method header".toList)) ∧
      (MIMEHeader.Get canon part.Header urlHeader ≠ [] →
        MIMEHeader.Get canon part.Header methodHeader ≠ [] →
        ∀ body, part.body = .ok body →
          (r.readNextRequest canon (Request.Reset req0)).2.2 = .ok ∧
            (r.readNextRequest canon (Request.Reset req0)).2.1.uri =
              MIMEHeader.Get canon part.Header urlHeader ∧
            (r.readNextRequest canon (Request.Reset req0)).2.1.method =
              MIMEHeader.Get canon part.Header methodHeader ∧
            (r.readNextRequest canon (Request.Reset req0)).2.1.body = body ∧
            (r.readNextRequest canon (Request.Reset req0)).2.1.header =
              setCalls (MIMEHeader.Del canon (MIMEHeader.Del canon part.Header urlHeader)
                methodHeader) ∧
            (∀ c ∈ (r.readNextRequest canon (Request.Reset req0)).2.1.header,
              c.key ≠ canon urlHeader ∧ c.key ≠ canon methodHeader) ∧
            (∀ e ∈ part.Header, e.1 ≠ canon urlHeader → e.1 ≠ canon methodHeader → ∀ v ∈ e.2,
              HeaderCall.Set e.1 v ∈ (r.readNextRequest canon (Request.Reset req0)).2.1.header)) := by
  have hget := Get_Del_ne canon part.Header methodHeader urlHeader (Ne.symm hc)
  refine ⟨?_, ?_, ?_⟩
  · intro hu
    unfold multipartRequestReader.readNextRequest
    simp only [hr, hu, if_true]
  · intro hu hm
    unfold multipartRequestReader.readNextRequest
    simp only [hr, hu, if_false, hget, hm, if_true]
  · intro hu hm body hb
    unfold multipartRequestReader.readNextRequest
    simp only [hr, hu, if_false, hget, hm, hb]
    rw [copyPartHeaders_eq]
    refine ⟨trivial, rfl, rfl, rfl, ?_, ?_, ?_⟩
    · show [] ++ setCalls _ = setCalls _
      rw [List.nil_append]
    · intro c hc
      have hc1 : c ∈ setCalls (MIMEHeader.Del canon (MIMEHeader.Del canon part.Header urlHeader)
          methodHeader) := by
        simpa [Request.SetBodyRaw, Request.SetRequestURI, Request.SetMethod, Request.Reset] using hc
      obtain ⟨e, he, v, -, rfl⟩ := (mem_setCalls _ c).1 hc1
      obtain ⟨h2, hin⟩ := Del_no_key canon _ methodHeader _ he
      obtain ⟨h1, -⟩ := Del_no_key canon _ urlHeader _ hin
      exact ⟨h1, h2⟩
    · intro e he h1 h2 v hv
      have hin := mem_Del canon _ methodHeader e (mem_Del canon _ urlHeader e he h1) h2
      have hc1 : HeaderCall.Set e.1 v ∈ setCalls (MIMEHeader.Del canon
          (MIMEHeader.Del canon part.Header urlHeader) methodHeader) :=
        (mem_setCalls _ _).2 ⟨e, hin, v, hv, rfl⟩
      simpa [Request.SetBodyRaw, Request.SetRequestURI, Request.SetMethod, Request.Reset] using hc1

/-- C6 (witness): a part with URL, method and one more header. -/
theorem multipart_read_part_witness :
    (multipartRequestReader.readNextRequest canonKey
        { mpr := { parts := [goodPart], final := .EOF } } (Request.Reset {})).2.2 = .ok ∧
      (multipartRequestReader.readNextRequest canonKey
        { mpr := { parts := [goodPart], final := .EOF } } (Request.Reset {})).2.1.uri =
        "http://a/".toList ∧
      (multipartRequestReader.readNextRequest canonKey
        { mpr := { parts := [goodPart], final := .EOF } } (Request.Reset {})).2.1.header =
        [.Set "Content-Type".toList "text/plain".toList] :=
  have h := (multipart_read_part canonKey { mpr := { parts := [goodPart], final := .EOF } } goodPart
    [] {} (by decide) rfl).2.2 (by decide) (by decide) "hello".toList rfl
  ⟨h.1, h.2.1.trans (by decide), h.2.2.2.2.1.trans (by decide)⟩

/-! ## The record of a batch -/

theorem outcomes_length (env : Env) (start : Nat) (l : List Request) :
    (outcomes env start l).length = l.length := by
  induction l generalizing start with
  | nil => rfl
  | cons x rest ih => simp [outcomes, ih]

/-- The requests handed to the outbound client are, in order, the first ones
the reader yields, and the calls on the writer are, in order, the calls that
answer their results; when the loop is left by `break`, every request the
reader yields has been handed on. -/
theorem handleLoop_trace (env : Env) (fuel : Nat) (b : Batch) :
    ∃ m, m ≤ (requestsOf env.canon fuel b.rr).length ∧
      (handleLoop env fuel b).1.sent = b.sent ++ (requestsOf env.canon fuel b.rr).take m ∧
      (handleLoop env fuel b).1.calls =
        b.calls ++
          (outcomes env b.sent.length ((requestsOf env.canon fuel b.rr).take m)).map elementCall ∧
      ((handleLoop env fuel b).2 = none → m = (requestsOf env.canon fuel b.rr).length) := by
  induction fuel generalizing b with
  | zero =>
    refine ⟨0, Nat.zero_le _, ?_, ?_, ?_⟩
    · simp [handleLoop]
    · simp [handleLoop, outcomes]
    · intro h
      simp [handleLoop] at h
  | succ fuel ih =>
    unfold handleLoop requestsOf
    rcases hr : b.rr.readNextRequest env.canon (Request.Reset {}) with ⟨rr1, req, st⟩
    cases st with
    | failed err =>
      cases err <;> exact ⟨0, Nat.zero_le _, by simp, by simp [outcomes], by simp⟩
    | panicked => exact ⟨0, Nat.zero_le _, by simp, by simp [outcomes], by simp⟩
    | ok =>
      simp only []
      have hrr := dispatch_rr env b rr1 req
      have hsent := dispatch_sent env b rr1 req
      have hcalls := dispatch_calls env b rr1 req
      rcases hdis : dispatch env b rr1 req with ⟨b1, ex⟩
      rw [hdis] at hrr hsent hcalls
      simp only at hrr hsent hcalls
      cases ex with
      | some ex =>
        refine ⟨1, by simp, ?_, ?_, by simp⟩
        · simp [hsent]
        · simp [hcalls, outcomes]
      | none =>
        obtain ⟨m, hm, hs, hc, hn⟩ := ih b1
        rw [hrr] at hm hs hc hn
        refine ⟨m + 1, by simpa using hm, ?_, ?_, ?_⟩
        · simp only [hs, hsent, List.take_succ_cons, List.append_assoc, List.singleton_append]
        · simp only [hc, hcalls, hsent, List.take_succ_cons, outcomes, List.map_cons,
            List.append_assoc, List.singleton_append, List.length_append, List.length_singleton]
        · intro h
          simp only [List.length_cons, Nat.add_right_cancel_iff]
          exact hn h

/-- A read from a reader over a well-formed envelope either succeeds, leaving
such a reader, or signals the end of a reader that has nothing left. -/
theorem WellFormed_read (canon : Str → Str) (rr : requestReader) (hwf : rr.WellFormed canon)
    (req : Request) :
    (∃ rr1 req1, rr.readNextRequest canon req = (rr1, req1, .ok) ∧ rr1.WellFormed canon) ∨
      (∃ rr1 req1, rr.readNextRequest canon req = (rr1, req1, .failed .EOF) ∧ rr.remaining = 0) := by
  cases rr with
  | json r =>
    by_cases hk : r.currentRequest < r.parsedBody.Requests.length
    · left
      obtain ⟨h1, h2, -⟩ := json_read_entry r req hk (hwf _ (List.get_mem _ _ _))
      rcases hr : r.readNextRequest req with ⟨r1, req1, st⟩
      rw [hr] at h1 h2
      simp only at h1 h2
      subst h1 h2
      refine ⟨.json { r with currentRequest := r.currentRequest + 1 }, req1, ?_, ?_⟩
      · simp only [requestReader.readNextRequest, hr]
      · exact hwf
    · right
      have hle : r.parsedBody.Requests.length ≤ r.currentRequest := Nat.not_lt.1 hk
      refine ⟨.json r, req, ?_, ?_⟩
      · simp only [requestReader.readNextRequest, json_read_at_end r req hle]
      · simp only [requestReader.remaining]
        omega
  | multipart r =>
    obtain ⟨hfin, hparts⟩ := hwf
    cases hp : r.mpr.parts with
    | nil =>
      right
      refine ⟨.multipart r, req, ?_, ?_⟩
      · simp only [requestReader.readNextRequest, multipartRequestReader.readNextRequest, hp, hfin]
      · simp only [requestReader.remaining, hp, List.length_nil]
    | cons p rest =>
      left
      obtain ⟨hu, hm, hok⟩ := hparts p (by rw [hp]; exact List.mem_cons_self _ _)
      obtain ⟨body, hb⟩ : ∃ body, p.body = .ok body := by
        cases hpb : p.body with
        | error e => simp [hpb, Except.toBool] at hok
        | ok body => exact ⟨body, rfl⟩
      have hread : (requestReader.multipart r).readNextRequest canon req =
          (.multipart { mpr := { r.mpr with parts := rest } },
            (copyPartHeaders
              (MIMEHeader.Del canon (MIMEHeader.Del canon p.Header urlHeader) methodHeader)
              ((req.SetMethod
                (MIMEHeader.Get canon (MIMEHeader.Del canon p.Header urlHeader) methodHeader)).SetRequestURI
                (MIMEHeader.Get canon p.Header urlHeader))).SetBodyRaw body, .ok) := by
        simp only [requestReader.readNextRequest, multipartRequestReader.readNextRequest, hp, hu,
          hm, hb, if_false]
      exact ⟨_, _, hread, hfin, fun q hq => hparts q (by rw [hp]; exact List.mem_cons_of_mem _ hq)⟩

/-- A reader over a well-formed envelope yields as many sub-requests as it has
left. -/
theorem requestsOf_length (canon : Str → Str) (fuel : Nat) (rr : requestReader)
    (hwf : rr.WellFormed canon) (hf : rr.remaining < fuel) :
    (requestsOf canon fuel rr).length = rr.remaining := by
  induction fuel generalizing rr with
  | zero => omega
  | succ fuel ih =>
    unfold requestsOf
    rcases WellFormed_read canon rr hwf (Request.Reset {}) with
      ⟨rr1, req1, hr, hwf1⟩ | ⟨rr1, req1, hr, h0⟩
    · have hrem := read_ok_remaining canon rr rr1 _ req1 hr
      simp only [hr, List.length_cons]
      rw [ih rr1 hwf1 (by omega)]
      exact hrem
    · simp only [hr, List.length_nil]
      exact h0.symm

/-- Over a well-formed envelope the loop is left by `break` or by a failing
call on the response writer. -/
theorem handleLoop_WellFormed (env : Env) (fuel : Nat) (b : Batch)
    (hwf : b.rr.WellFormed env.canon) :
    (handleLoop env fuel b).2 ≠ some .readFailed ∧ (handleLoop env fuel b).2 ≠ some .recovered := by
  induction fuel generalizing b with
  | zero => simp [handleLoop]
  | succ fuel ih =>
    unfold handleLoop
    rcases WellFormed_read env.canon b.rr hwf (Request.Reset {}) with
      ⟨rr1, req1, hr, hwf1⟩ | ⟨rr1, req1, hr, -⟩
    · simp only [hr]
      have hd := dispatch_head env b rr1 req1
      have hrr := dispatch_rr env b rr1 req1
      rcases hdis : dispatch env b rr1 req1 with ⟨b1, ex⟩
      rw [hdis] at hd hrr
      simp only at hrr
      cases ex with
      | some ex =>
        rcases hd with ⟨h1 | h1, _⟩ | ⟨h1, _, _⟩ <;> cases h1 <;> simp
      | none =>
        simp only []
        exact ih b1 (by rw [hrr]; exact hwf1)
    · simp [hr]

/-! ## The end of the handler -/

theorem finish_spec (env : Env) (b : Batch) (ex : Option Exit) :
    (finish env (b, ex)).sent = b.sent ∧
      (ex = none →
        ((finish env (b, ex)).exit = .completed ∨ (finish env (b, ex)).exit = .closeFailed) ∧
          (finish env (b, ex)).calls = b.calls ++ [.Close]) ∧
      (∀ x, ex = some x → (finish env (b, ex)).exit = x ∧ (finish env (b, ex)).calls = b.calls) := by
  cases ex with
  | none =>
    simp only [finish]
    rcases hc : b.resWriter.Close env b.ctx with ⟨ctx3, e⟩
    cases e <;> simp
  | some x => cases x <;> simp [finish]

theorem opened_init (env : Env) (ctx : RequestCtx) (b0 : Batch) (h : opened env ctx = some b0) :
    b0.sent = [] ∧ b0.calls = [.Open] ∧ ∃ ty, parseRequest env ctx = .ok (b0.rr, ty) := by
  unfold opened at h
  cases hp : parseRequest env ctx with
  | error e => simp [hp] at h
  | ok p =>
    obtain ⟨rr, resType⟩ := p
    simp only [hp] at h
    rcases hs : selectWriter env ctx rr resType with ⟨ctx1, ow⟩
    simp only [hs] at h
    cases ow with
    | none => simp at h
    | some w =>
      simp only at h
      rcases ho : w.Open env ctx1 with ⟨ctx2, e⟩
      simp only [ho] at h
      cases e with
      | some e => simp at h
      | none =>
        simp only [Option.some.injEq] at h
        subst h
        exact ⟨rfl, rfl, resType, rfl⟩

/-- The record of a batch whose writer was opened: the requests handed to the
outbound client are the first ones the reader yields; the calls on the writer
are `Open`, then for each of these requests the call that answers its result,
then `Close` when the handler gets there, which it does only after every
sub-request the reader yields. -/
theorem HandleMani_trace (env : Env) (ctx : RequestCtx) (b0 : Batch)
    (h : opened env ctx = some b0) :
    ∃ m, m ≤ (requestsOf env.canon (b0.rr.remaining + 1) b0.rr).length ∧
      (HandleMani env ctx).sent = (requestsOf env.canon (b0.rr.remaining + 1) b0.rr).take m ∧
      ((((HandleMani env ctx).exit = .completed ∨ (HandleMani env ctx).exit = .closeFailed) ∧
          m = (requestsOf env.canon (b0.rr.remaining + 1) b0.rr).length ∧
          (HandleMani env ctx).calls =
            .Open :: (outcomes env 0 (HandleMani env ctx).sent).map elementCall ++ [.Close]) ∨
        (((HandleMani env ctx).exit = .readFailed ∨ (HandleMani env ctx).exit = .writeErrorFailed ∨
            (HandleMani env ctx).exit = .writeResponseFailed ∨
            (HandleMani env ctx).exit = .recovered) ∧
          (HandleMani env ctx).calls =
            .Open :: (outcomes env 0 (HandleMani env ctx).sent).map elementCall)) := by
  obtain ⟨hs0, hc0, -⟩ := opened_init env ctx b0 h
  rw [HandleMani_of_opened env ctx b0 h]
  obtain ⟨m, hm, hsent, hcalls, hnone⟩ := handleLoop_trace env (b0.rr.remaining + 1) b0
  have hf := handleLoop_fuel env (b0.rr.remaining + 1) b0 (Nat.lt_succ_self _)
  have hh := (handleLoop_head env (b0.rr.remaining + 1) b0).2
  rcases hl : handleLoop env (b0.rr.remaining + 1) b0 with ⟨b, ex⟩
  rw [hl] at hsent hcalls hnone hf hh
  simp only at hsent hcalls hnone hf hh
  rw [hs0, List.nil_append] at hsent
  rw [hc0, hs0, List.length_nil, ← hsent] at hcalls
  obtain ⟨fs, fnone, fsome⟩ := finish_spec env b ex
  refine ⟨m, hm, by rw [fs, hsent], ?_⟩
  cases ex with
  | none =>
    left
    obtain ⟨hex, hcl⟩ := fnone rfl
    refine ⟨hex, hnone rfl, ?_⟩
    rw [hcl, fs, hcalls]
    rfl
  | some x =>
    right
    obtain ⟨hex, hcl⟩ := fsome x rfl
    rw [hex, hcl, fs, hcalls]
    refine ⟨?_, rfl⟩
    rcases hh with ⟨h1 | h1 | h1 | h1, _⟩ | ⟨h1, _⟩ | ⟨h1, _⟩
    · cases h1
    · cases h1
      exact Or.inr (Or.inl rfl)
    · cases h1
      exact Or.inr (Or.inr (Or.inr rfl))
    · exact absurd h1 hf
    · cases h1
      exact Or.inl rfl
    · cases h1
      exact Or.inr (Or.inr (Or.inl rfl))

theorem Write_none (env : Env) (c : RequestCtx) (p : Str) (h : (c.Write env p).2 = none) :
    (c.Write env p).1.body = c.body ++ p := by
  unfold RequestCtx.Write at h ⊢
  cases hf : env.writeFault c.writes with
  | some e => simp [hf] at h
  | none => rfl

theorem writeComma_none (env : Env) (w : jsonResponseWriter) (c : RequestCtx)
    (h : (w.writeComma env c).2 = none) :
    (w.writeComma env c).1.body =
      c.body ++ (if w.responseNum < w.numResponses - 1 then comma else []) := by
  unfold jsonResponseWriter.writeComma at h ⊢
  by_cases hc : w.responseNum < w.numResponses - 1
  · rw [if_pos hc] at h ⊢
    rw [if_pos hc]
    exact Write_none env c comma h
  · rw [if_neg hc, if_neg hc, List.append_nil]

theorem CreatePart_none (env : Env) (mw : multipartWriter) (hdr : MIMEHeader) (c : RequestCtx)
    (h : (mw.CreatePart env hdr c).2.2 = none) :
    (mw.CreatePart env hdr c).1 = { mw with lastpart := true } ∧
      (mw.CreatePart env hdr c).2.1.body = c.body ++ env.partHead mw.boundary mw.lastpart hdr := by
  unfold multipartWriter.CreatePart at h ⊢
  have h1 := Write_none env c (env.partHead mw.boundary mw.lastpart hdr)
  rcases hw : c.Write env (env.partHead mw.boundary mw.lastpart hdr) with ⟨c1, e⟩
  rw [hw] at h1
  simp only [hw] at h ⊢
  cases e with
  | some e => simp at h
  | none => exact ⟨rfl, h1 rfl⟩

/-- A call of `WriteNextError` that does not fail appends the element of the
error and leaves the writer as `next` says. -/
theorem WriteNextError_element (env : Env) (rw : responseWriter) (err : Str) (c : RequestCtx)
    (h : (rw.WriteNextError env err c).2.2 = none) :
    (rw.WriteNextError env err c).1 = rw.next ∧
      (rw.WriteNextError env err c).2.1.body = c.body ++ rw.element env (.error err) := by
  cases rw with
  | json w =>
    simp only [responseWriter.WriteNextError, jsonResponseWriter.WriteNextError, jsonErrorOf,
      responseWriter.next, responseWriter.element] at h ⊢
    cases hm : env.marshal { Error := some { Detail := err }, Response := none } with
    | error e => simp [hm] at h
    | ok bts =>
      simp only [hm] at h ⊢
      have h1 := Write_none env c bts
      rcases hw1 : c.Write env bts with ⟨c1, e1⟩
      rw [hw1] at h1
      simp only [hw1] at h ⊢
      cases e1 with
      | some e => simp at h
      | none =>
        simp only at h ⊢
        refine ⟨trivial, ?_⟩
        rw [writeComma_none env w c1 h, h1 rfl, List.append_assoc]
  | multipart w =>
    simp only [responseWriter.WriteNextError, multipartResponseWriter.WriteNextError,
      responseWriter.next, responseWriter.element, MIMEHeader.Set] at h ⊢
    have h1 := CreatePart_none env w.resWriter
      (List.filter (fun e => e.1 != env.canon "x-mani-error".toList) [] ++
        [(env.canon "x-mani-error".toList, [err])]) c
    rcases hcp : w.resWriter.CreatePart env
      (List.filter (fun e => e.1 != env.canon "x-mani-error".toList) [] ++
        [(env.canon "x-mani-error".toList, [err])]) c with ⟨mw, c1, e1⟩
    rw [hcp] at h1
    simp only [hcp] at h ⊢
    cases e1 with
    | some e => simp at h
    | none =>
      simp only at h ⊢
      obtain ⟨hmw, hb⟩ := h1 rfl
      have h2 := Write_none env c1 err
      rcases hw2 : c1.Write env err with ⟨c2, e2⟩
      rw [hw2] at h2
      simp only [hw2] at h ⊢
      subst h
      simp only at hmw hb
      refine ⟨by rw [hmw], ?_⟩
      rw [h2 rfl, hb]
      simp

/-- A call of `WriteNextResponse` that does not fail appends the element of the
response and leaves the writer as `next` says. -/
theorem WriteNextResponse_element (env : Env) (rw : responseWriter) (res : Response)
    (c : RequestCtx) (h : (rw.WriteNextResponse env res c).2.2 = none) :
    (rw.WriteNextResponse env res c).1 = rw.next ∧
      (rw.WriteNextResponse env res c).2.1.body = c.body ++ rw.element env (.ok res) := by
  cases rw with
  | json w =>
    simp only [responseWriter.WriteNextResponse, jsonResponseWriter.WriteNextResponse,
      responseWriter.next, responseWriter.element] at h ⊢
    cases hm : env.marshal (jsonResponseOf res) with
    | error e => simp [hm] at h
    | ok bts =>
      simp only [hm] at h ⊢
      have h1 := Write_none env c bts
      rcases hw1 : c.Write env bts with ⟨c1, e1⟩
      rw [hw1] at h1
      simp only [hw1] at h ⊢
      cases e1 with
      | some e => simp at h
      | none =>
        simp only at h ⊢
        refine ⟨trivial, ?_⟩
        rw [writeComma_none env w c1 h, h1 rfl, List.append_assoc]
  | multipart w =>
    simp only [responseWriter.WriteNextResponse, multipartResponseWriter.WriteNextResponse,
      responseWriter.next, responseWriter.element] at h ⊢
    have h1 := CreatePart_none env w.resWriter (mimeHeaderOf env.canon res) c
    rcases hcp : w.resWriter.CreatePart env (mimeHeaderOf env.canon res) c with ⟨mw, c1, e1⟩
    rw [hcp] at h1
    simp only [hcp] at h ⊢
    cases e1 with
    | some e => simp at h
    | none =>
      simp only at h ⊢
      obtain ⟨hmw, hb⟩ := h1 rfl
      have h2 := Write_none env c1 res.body
      rcases hw2 : c1.Write env res.body with ⟨c2, e2⟩
      rw [hw2] at h2
      simp only [hw2] at h ⊢
      subst h
      simp only at hmw hb
      refine ⟨by rw [hmw], ?_⟩
      rw [h2 rfl, hb]
      simp

/-- An iteration of the loop that goes on has appended the element of its
dispatch result. -/
theorem dispatch_element (env : Env) (b : Batch) (rr1 : requestReader) (req : Request)
    (h : (dispatch env b rr1 req).2 = none) :
    (dispatch env b rr1 req).1.resWriter = b.resWriter.next ∧
      (dispatch env b rr1 req).1.ctx.body =
        b.ctx.body ++ b.resWriter.element env (env.client b.sent.length req) := by
  unfold dispatch at h ⊢
  cases hc : env.client b.sent.length req with
  | error err =>
    have h1 := WriteNextError_element env b.resWriter err b.ctx
    rcases hw : b.resWriter.WriteNextError env err b.ctx with ⟨w1, ctx1, e⟩
    rw [hw] at h1
    simp only [hc, hw] at h ⊢
    cases e with
    | some e => simp at h
    | none => exact h1 rfl
  | ok res =>
    have h1 := WriteNextResponse_element env b.resWriter res b.ctx
    rcases hw : b.resWriter.WriteNextResponse env res b.ctx with ⟨w1, ctx1, e⟩
    rw [hw] at h1
    simp only [hc, hw] at h ⊢
    cases e with
    | some e => simp at h
    | none => exact h1 rfl

theorem next_trailer (env : Env) (rw : responseWriter) : rw.next.trailer env = rw.trailer env := by
  cases rw <;> rfl

/-- When the loop is left by `break` or by a panic, the body is the one at its
start followed by the elements of the requests dispatched in it, in order. -/
theorem handleLoop_elements (env : Env) (fuel : Nat) (b : Batch)
    (h : (handleLoop env fuel b).2 = none ∨ (handleLoop env fuel b).2 = some .recovered) :
    ∃ new, (handleLoop env fuel b).1.sent = b.sent ++ new ∧
      (handleLoop env fuel b).1.ctx.body =
        b.ctx.body ++ (b.resWriter.elements env (outcomes env b.sent.length new)).flatten ∧
      (handleLoop env fuel b).1.resWriter.trailer env = b.resWriter.trailer env := by
  induction fuel generalizing b with
  | zero => simp [handleLoop] at h
  | succ fuel ih =>
    unfold handleLoop at h ⊢
    rcases hr : b.rr.readNextRequest env.canon (Request.Reset {}) with ⟨rr1, req, st⟩
    rw [hr] at h
    cases st with
    | failed err =>
      cases err with
      | EOF => exact ⟨[], by simp, by simp [outcomes, responseWriter.elements], rfl⟩
      | other e => simp at h
    | panicked => exact ⟨[], by simp, by simp [outcomes, responseWriter.elements], rfl⟩
    | ok =>
      simp only [] at h ⊢
      have hel := dispatch_element env b rr1 req
      have hsent := dispatch_sent env b rr1 req
      have hd := dispatch_head env b rr1 req
      rcases hdis : dispatch env b rr1 req with ⟨b1, ex⟩
      rw [hdis] at h hel hsent hd
      cases ex with
      | some ex =>
        exfalso
        simp only at h
        rcases h with h | h
        · cases h
        · simp only [Option.some.injEq] at h
          subst h
          rcases hd with ⟨h1 | h1, _⟩ | ⟨h1, _, _⟩ <;> cases h1
      | none =>
        simp only [] at h ⊢
        obtain ⟨hw1, hb1⟩ := hel rfl
        simp only at hw1 hb1 hsent
        obtain ⟨new, hs, hb, ht⟩ := ih b1 h
        refine ⟨req :: new, ?_, ?_, ?_⟩
        · rw [hs, hsent, List.append_assoc, List.singleton_append]
        · rw [hb, hb1, hw1, hsent, List.length_append, List.length_singleton]
          simp only [outcomes, responseWriter.elements, List.flatten_cons, List.append_assoc]
        · rw [ht, hw1, next_trailer]

theorem elements_length (env : Env) (rw : responseWriter) (os : List (Except Str Response)) :
    (rw.elements env os).length = os.length := by
  induction os generalizing rw with
  | nil => rfl
  | cons o os ih => simp [responseWriter.elements, ih]

/-- What the writer opened for a JSON batch looks like. -/
theorem opened_json_writer (env : Env) (ctx : RequestCtx) (b0 : Batch) (w : jsonResponseWriter)
    (hop : opened env ctx = some b0) (hw : b0.resWriter = .json w) :
    w.responseNum = 0 ∧
      ∃ r, b0.rr = .json r ∧ w.numResponses = (r.parsedBody.Requests.length : Int) := by
  unfold opened at hop
  cases hp : parseRequest env ctx with
  | error e => simp [hp] at hop
  | ok p =>
    obtain ⟨rr, resType⟩ := p
    simp only [hp] at hop
    rcases hs : selectWriter env ctx rr resType with ⟨ctx1, ow⟩
    simp only [hs] at hop
    cases ow with
    | none => simp at hop
    | some rw =>
      simp only at hop
      rcases ho : rw.Open env ctx1 with ⟨ctx2, e⟩
      simp only [ho] at hop
      cases e with
      | some e => simp at hop
      | none =>
        simp only [Option.some.injEq] at hop
        subst hop
        simp only at hw
        subst hw
        rcases parseRequest_ok env ctx rr resType hp with ⟨_, rfl, r, rfl⟩ | ⟨_, _, rfl, r, rfl⟩
        · simp [selectWriter] at hs
        · simp only [selectWriter, Prod.mk.injEq, Option.some.injEq, responseWriter.json.injEq] at hs
          obtain ⟨-, rfl⟩ := hs
          exact ⟨rfl, r, rfl, rfl⟩

/-- The batch opened over a JSON reader: it was parsed as a JSON request and
its writer is the JSON writer for the number of its entries, at position 0. -/
theorem opened_json (env : Env) (ctx : RequestCtx) (b0 : Batch) (r : jsonRequestReader)
    (hop : opened env ctx = some b0) (hr : b0.rr = .json r) :
    parseRequest env ctx = .ok (.json r, .responseTypeJson) ∧
      b0.resWriter =
        .json { numResponses := (r.parsedBody.Requests.length : Int), responseNum := 0 } := by
  unfold opened at hop
  cases hp : parseRequest env ctx with
  | error e => simp [hp] at hop
  | ok p =>
    obtain ⟨rr, resType⟩ := p
    simp only [hp] at hop
    rcases parseRequest_ok env ctx rr resType hp with ⟨_, rfl, r1, rfl⟩ | ⟨_, _, rfl, r1, rfl⟩
    · simp only [selectWriter, responseWriter.Open, multipartResponseWriter.Open,
        Option.some.injEq] at hop
      subst hop
      cases hr
    · simp only [selectWriter, responseWriter.Open, jsonResponseWriter.Open] at hop
      rcases ho : (ctx.SetContentType applicationJson).Write env jsonHead with ⟨ctx2, e⟩
      rw [ho] at hop
      cases e with
      | some e => simp at hop
      | none =>
        simp only [Option.some.injEq] at hop
        subst hop
        simp only [requestReader.json.injEq] at hr
        subst hr
        exact ⟨rfl, rfl⟩

theorem writeComma_at_zero (env : Env) (w : jsonResponseWriter) (c : RequestCtx)
    (h0 : w.responseNum = 0) :
    w.writeComma env c = if 2 ≤ w.numResponses then c.Write env comma else (c, none) := by
  unfold jsonResponseWriter.writeComma
  rw [h0]
  by_cases h2 : 2 ≤ w.numResponses
  · rw [if_pos h2, if_pos (by omega)]
  · rw [if_neg h2, if_neg (by omega)]

theorem Write_body (env : Env) (hw : ∀ n, env.writeFault n = none) (c : RequestCtx) (p : Str) :
    (c.Write env p).1.body = c.body ++ p := by
  unfold RequestCtx.Write
  rw [hw]

theorem Write_eq (env : Env) (hw : ∀ n, env.writeFault n = none) (c : RequestCtx) (p : Str) :
    c.Write env p = ({ c with body := c.body ++ p, writes := c.writes + 1 }, none) := by
  unfold RequestCtx.Write
  rw [hw]

theorem json_WriteNextError_body (env : Env) (hw : ∀ n, env.writeFault n = none)
    (w : jsonResponseWriter) (c : RequestCtx) (err bts : Str) (h0 : w.responseNum = 0)
    (hm : env.marshal (jsonErrorOf err) = .ok bts) :
    (w.WriteNextError env err c).2 = none ∧
      (w.WriteNextError env err c).1.body =
        c.body ++ bts ++ (if 2 ≤ w.numResponses then comma else []) := by
  unfold jsonResponseWriter.WriteNextError
  simp only [hm, Write_eq env hw, writeComma_at_zero env w _ h0]
  by_cases h2 : 2 ≤ w.numResponses
  · simp only [if_pos h2, Write_eq env hw, and_self]
  · simp only [if_neg h2, List.append_nil, and_self]

theorem json_WriteNextResponse_body (env : Env) (hw : ∀ n, env.writeFault n = none)
    (w : jsonResponseWriter) (c : RequestCtx) (res : Response) (bts : Str) (h0 : w.responseNum = 0)
    (hm : env.marshal (jsonResponseOf res) = .ok bts) :
    (w.WriteNextResponse env res c).2.2 = none ∧
      (w.WriteNextResponse env res c).2.1.body =
        c.body ++ bts ++ (if 2 ≤ w.numResponses then comma else []) := by
  unfold jsonResponseWriter.WriteNextResponse
  simp only [hm, Write_eq env hw, writeComma_at_zero env w _ h0]
  by_cases h2 : 2 ≤ w.numResponses
  · simp only [if_pos h2, Write_eq env hw, and_self]
  · simp only [if_neg h2, List.append_nil, and_self]

/-! ## Count, order and isolation of the elements -/

/-- C1 (the code at the failing input): a JSON batch of two sub-requests whose
dispatches both fail.  The body of the response has a comma after the last
element: it is `{"responses":[E,E,]}` and not `{"responses":[E,E]}`, for
`E = {"error":{"detail":"connection refused"}}`. -/
theorem json_envelope_trailing_comma :
    (HandleMani (sampleEnv (.ok twoRequests) noParts refusing) jsonCtx).ctx.body =
        jsonHead ++ "\x7b\x22error\x22:\x7b\x22detail\x22:\x22connection refused\x22\x7d\x7d".toList ++
          comma ++ "\x7b\x22error\x22:\x7b\x22detail\x22:\x22connection refused\x22\x7d\x7d".toList ++
          comma ++ jsonEnd ∧
      (HandleMani (sampleEnv (.ok twoRequests) noParts refusing) jsonCtx).ctx.body ≠
        jsonHead ++ "\x7b\x22error\x22:\x7b\x22detail\x22:\x22connection refused\x22\x7d\x7d".toList ++
          comma ++ "\x7b\x22error\x22:\x7b\x22detail\x22:\x22connection refused\x22\x7d\x7d".toList ++
          jsonEnd ∧
      (HandleMani (sampleEnv (.ok twoRequests) noParts refusing) jsonCtx).exit = .completed := by
  decide

/-- C2 (counterexample): a well-formed JSON envelope of two sub-requests, the
upstream answering with content type `application/json` and a body that is not
JSON.  `json.Marshal` rejects the first response, `WriteNextResponse` fails,
and the handler returns after one call on the writer, without `Close`. -/
theorem one_writer_call_for_two_requests :
    parseRequest (sampleEnv (.ok twoRequests) noParts badJsonUpstream) jsonCtx =
        .ok (.json { parsedBody := twoRequests, currentRequest := 0 }, .responseTypeJson) ∧
      requestReader.WellFormed canonKey (.json { parsedBody := twoRequests, currentRequest := 0 }) ∧
      requestReader.remaining (.json { parsedBody := twoRequests, currentRequest := 0 }) = 2 ∧
      (HandleMani (sampleEnv (.ok twoRequests) noParts badJsonUpstream) jsonCtx).calls =
        [.Open,
          .WriteNextResponse
            { statusCode := 200, header := [("Content-Type".toList, applicationJson)],
              contentType := applicationJson, body := "x".toList }] ∧
      (HandleMani (sampleEnv (.ok twoRequests) noParts badJsonUpstream) jsonCtx).exit =
        .writeResponseFailed := by
  decide

/-- C2 (amended): for every well-formed inbound envelope (JSON or multipart)
with N sub-requests and every dispatcher behaviour, the handler makes one call
on the response writer (`WriteNextResponse` or `WriteNextError`) for each
sub-request it dispatches, in order; when it reaches `Close` it has made
exactly N of them between `Open` and `Close`; and it reaches `Close` unless a
call on the writer fails, in which case it has made at most N and returns. -/
theorem writer_calls_per_envelope (env : Env) (ctx : RequestCtx) (rr : requestReader)
    (ty : responseType) (n : Nat) (hp : parseRequest env ctx = .ok (rr, ty))
    (hwf : rr.WellFormed env.canon) (hn : rr.remaining = n) :
    (((HandleMani env ctx).exit = .completed ∨ (HandleMani env ctx).exit = .closeFailed) ∧
        (HandleMani env ctx).sent.length = n ∧
        ((outcomes env 0 (HandleMani env ctx).sent).map elementCall).length = n ∧
        (HandleMani env ctx).calls =
          .Open :: (outcomes env 0 (HandleMani env ctx).sent).map elementCall ++ [.Close]) ∨
      (((HandleMani env ctx).exit = .writeErrorFailed ∨
          (HandleMani env ctx).exit = .writeResponseFailed) ∧
        (HandleMani env ctx).sent.length ≤ n ∧
        (HandleMani env ctx).calls =
          .Open :: (outcomes env 0 (HandleMani env ctx).sent).map elementCall) ∨
      ((HandleMani env ctx).exit = .openFailed ∧ (HandleMani env ctx).calls = [.Open] ∧
        (HandleMani env ctx).sent = []) := by
  have hsel : ∃ ctx1 w, selectWriter env ctx rr ty = (ctx1, some w) := by
    rcases parseRequest_ok env ctx rr ty hp with ⟨_, rfl, r, rfl⟩ | ⟨_, _, rfl, r, rfl⟩
    · exact ⟨_, _, rfl⟩
    · exact ⟨_, _, rfl⟩
  obtain ⟨ctx1, w, hs⟩ := hsel
  rcases hopen : w.Open env ctx1 with ⟨ctx2, e⟩
  cases e with
  | some e =>
    right
    right
    unfold HandleMani
    simp only [hp, hs, hopen, and_self]
  | none =>
    have hop : opened env ctx =
        some { rr := rr, resWriter := w, ctx := ctx2, sent := [], calls := [.Open] } := by
      unfold opened
      simp only [hp, hs, hopen]
    obtain ⟨m, hm, hsent, hcalls⟩ := HandleMani_trace env ctx _ hop
    simp only at hm hsent hcalls
    have hlen := requestsOf_length env.canon (rr.remaining + 1) rr hwf (Nat.lt_succ_self _)
    have hsl : (HandleMani env ctx).sent.length = m := by
      rw [hsent, List.length_take]
      exact Nat.min_eq_left hm
    rcases hcalls with ⟨hex, hmn, hc⟩ | ⟨hex, hc⟩
    · left
      refine ⟨hex, ?_, ?_, hc⟩
      · rw [hsl, hmn, hlen, hn]
      · rw [List.length_map, outcomes_length, hsl, hmn, hlen, hn]
    · right
      left
      have hwfl := handleLoop_WellFormed env (rr.remaining + 1)
        { rr := rr, resWriter := w, ctx := ctx2, sent := [], calls := [.Open] } hwf
      have hH := HandleMani_of_opened env ctx _ hop
      simp only at hH
      rcases hloop : handleLoop env (rr.remaining + 1)
        { rr := rr, resWriter := w, ctx := ctx2, sent := [], calls := [.Open] } with ⟨b, ex⟩
      rw [hloop] at hwfl hH
      obtain ⟨-, fnone, fsome⟩ := finish_spec env b ex
      rw [← hH] at fnone fsome
      refine ⟨?_, by rw [hsl, ← hn, ← hlen]; exact hm, hc⟩
      cases ex with
      | none =>
        rcases (fnone rfl).1 with h1 | h1 <;> rw [h1] at hex <;> simp at hex
      | some x =>
        have hx := (fsome x rfl).1
        rcases hex with h1 | h1 | h1 | h1
        · rw [h1] at hx
          subst hx
          exact absurd rfl hwfl.1
        · exact Or.inl h1
        · exact Or.inr h1
        · rw [h1] at hx
          subst hx
          exact absurd rfl hwfl.2

/-- C2 (witness): a JSON envelope of three sub-requests of which the second
is refused: three calls between `Open` and `Close`. -/
theorem writer_calls_per_envelope_witness :
    (HandleMani (sampleEnv (.ok threeRequests) noParts secondRefused) jsonCtx).exit = .completed ∧
      (HandleMani (sampleEnv (.ok threeRequests) noParts secondRefused) jsonCtx).sent.length = 3 := by
  have h := writer_calls_per_envelope (sampleEnv (.ok threeRequests) noParts secondRefused) jsonCtx
    (.json { parsedBody := threeRequests, currentRequest := 0 }) .responseTypeJson 3
    (by decide) (by decide) (by decide)
  rcases h with ⟨_, h2, _⟩ | ⟨h1, _⟩ | ⟨h1, _⟩
  · exact ⟨by decide, h2⟩
  · exact absurd h1 (by decide)
  · exact absurd h1 (by decide)

/-- With a body writer that fails: a JSON batch of one sub-request whose
dispatch fails and for which the write of the error element fails with
`broken pipe`.  The handler returns from the branch of the failed
`WriteNextError` without `Close`, with the status code it had, 200; when it is
`Close` that fails, for the same batch, the status code is 500. -/
theorem write_error_failure_keeps_status :
    (HandleMani (faultyEnv 1 (.ok oneRequest) noParts refusing) jsonCtx).exit = .writeErrorFailed ∧
      (HandleMani (faultyEnv 1 (.ok oneRequest) noParts refusing) jsonCtx).calls =
        [.Open, .WriteNextError "connection refused".toList] ∧
      (HandleMani (faultyEnv 1 (.ok oneRequest) noParts refusing) jsonCtx).ctx.statusCode = 200 ∧
      (HandleMani (faultyEnv 2 (.ok oneRequest) noParts refusing) jsonCtx).exit = .closeFailed ∧
      (HandleMani (faultyEnv 2 (.ok oneRequest) noParts refusing) jsonCtx).ctx.statusCode = 500 := by
  decide

/-! ## Headers and body of an element -/

/-- C15 (the code at the failing input): a sub-response with two `Set-Cookie`
headers.  The JSON element has both pairs; the header of the multipart part
has the last one only, and so has the body of the multipart response. -/
theorem multipart_part_drops_duplicate_header :
    jsonHeadersOf twoCookies =
        [["Set-Cookie".toList, "a=1".toList], ["Set-Cookie".toList, "b=2".toList]] ∧
      mimeHeaderOf canonKey twoCookies = [("Set-Cookie".toList, ["b=2".toList])] ∧
      (HandleMani (sampleEnv (.ok oneRequest) { parts := [goodPart], final := .EOF } cookieUpstream)
          multipartCtx).ctx.body =
        "--RESP\r\nSet-Cookie: b=2\r\n\r\nhi\r\n--RESP--\r\n".toList := by
  decide

/-- C16 (counterexample): a sub-response with content type `application/json`
and an empty body.  Marshalled, the `body` object of its element has no `json`
member: it is `{}`. -/
theorem empty_json_body_has_no_member :
    HasPrefix emptyJsonResponse.contentType applicationJson = true ∧
      (jsonBodyOf emptyJsonResponse).members = [] ∧
      sampleMarshal (jsonResponseOf emptyJsonResponse) =
        .ok ("\x7b\x22response\x22:\x7b\x22statusCode\x22:204,\x22headers\x22:" ++
          "[[\x22Content-Type\x22,\x22application/json\x22]],\x22body\x22:\x7b\x7d\x7d\x7d").toList := by
  decide

/-- C16 (amended): for every sub-response `WriteNextResponse` of the JSON
writer marshals: if its content type starts with `application/json` the body
of the element has the sub-response body in `JSON` and nothing in `Bytes`,
otherwise it has it in `Bytes` and nothing in `JSON`; marshalled, a body that
is not empty appears under the one member `json`, respectively `bytes`, and
the empty body under no member at all, both fields being `omitempty`. -/
theorem json_body_member (res : Response) :
    (HasPrefix res.contentType applicationJson = true →
        jsonBodyOf res = { Bytes := none, JSON := some res.body } ∧
          (res.body ≠ [] → (jsonBodyOf res).members = [("json".toList, res.body)]) ∧
          (res.body = [] → (jsonBodyOf res).members = [])) ∧
      (HasPrefix res.contentType applicationJson = false →
        jsonBodyOf res = { Bytes := some res.body, JSON := none } ∧
          (res.body ≠ [] → (jsonBodyOf res).members = [("bytes".toList, res.body)]) ∧
          (res.body = [] → (jsonBodyOf res).members = [])) := by
  constructor
  · intro h
    have hb : jsonBodyOf res = { Bytes := none, JSON := some res.body } := by
      simp only [jsonBodyOf, jsonResponseOf, h, if_true]
    rw [hb]
    refine ⟨rfl, ?_, ?_⟩
    · intro hne
      cases hbody : res.body with
      | nil => exact absurd hbody hne
      | cons c cs => rfl
    · intro he
      rw [he]
      rfl
  · intro h
    have hb : jsonBodyOf res = { Bytes := some res.body, JSON := none } := by
      simp only [jsonBodyOf, jsonResponseOf, h, Bool.false_eq_true, if_false]
    rw [hb]
    refine ⟨rfl, ?_, ?_⟩
    · intro hne
      cases hbody : res.body with
      | nil => exact absurd hbody hne
      | cons c cs => rfl
    · intro he
      rw [he]
      rfl

/-! ## The headers a JSON read adds -/

theorem addHeaders_pairs (pairs : List (Str × Str)) (req : Request) :
    addHeaders (pairs.map (fun p => [p.1, p.2])) req =
      ({ req with header := req.header ++ pairs.map (fun p => HeaderCall.Add p.1 p.2) }, false) := by
  induction pairs generalizing req with
  | nil => simp [addHeaders]
  | cons p ps ih =>
    simp only [List.map_cons, addHeaders, ih, Request.Add, List.append_assoc, List.singleton_append]

/-- C17 (counterexample): an entry with the pairs `content-type: text/a`,
`content-type: text/b` and `x-a: 1`.  The read makes three calls of
`req.Header.Add`, one per pair; in the stand-in for `fasthttp` the sub-request
then carries two headers, `Content-Type: text/b` and `X-A: 1`: the two pairs
of one key are not kept as separate headers and the keys are not the ones of
the entry.  And the entry with the pairs `x-a: 1`, `x-a: 2`, `x-b: 3`: the
sub-request carries them under the keys `X-A` and `X-B`. -/
theorem json_headers_not_kept :
    (jsonRequestReader.readNextRequest
        { parsedBody := { Requests := [contentTypeTwiceRequest] }, currentRequest := 0 }
        (Request.Reset {})).2.2 = .ok ∧
      (jsonRequestReader.readNextRequest
        { parsedBody := { Requests := [contentTypeTwiceRequest] }, currentRequest := 0 }
        (Request.Reset {})).2.1.header =
        [.Add "content-type".toList "text/a".toList, .Add "content-type".toList "text/b".toList,
          .Add "x-a".toList "1".toList] ∧
      sampleVisitAll (jsonRequestReader.readNextRequest
        { parsedBody := { Requests := [contentTypeTwiceRequest] }, currentRequest := 0 }
        (Request.Reset {})).2.1.header =
        [("Content-Type".toList, "text/b".toList), ("X-A".toList, "1".toList)] ∧
      sampleVisitAll (jsonRequestReader.readNextRequest
        { parsedBody := { Requests := [duplicateHeadersRequest] }, currentRequest := 0 }
        (Request.Reset {})).2.1.header =
        [("X-A".toList, "1".toList), ("X-A".toList, "2".toList), ("X-B".toList, "3".toList)] ∧
      sampleVisitAll (jsonRequestReader.readNextRequest
        { parsedBody := { Requests := [duplicateHeadersRequest] }, currentRequest := 0 }
        (Request.Reset {})).2.1.header ≠
        [("x-a".toList, "1".toList), ("x-a".toList, "2".toList), ("x-b".toList, "3".toList)] := by
  decide

/-- C17 (amended): for every entry of a decoded JSON envelope whose header
entries are pairs `[key, value]`, `readNextRequest` on a reset buffer succeeds
and the calls it makes on the header of the sub-request are exactly one
`req.Header.Add(key, value)` per pair of the entry, in the same order, a
repeated key included each time. -/
theorem json_headers_added (r : jsonRequestReader) (req0 : Request) (pairs : List (Str × Str))
    (hk : r.currentRequest < r.parsedBody.Requests.length)
    (hp : (r.parsedBody.Requests.get ⟨r.currentRequest, hk⟩).Headers =
      pairs.map (fun p => [p.1, p.2])) :
    (r.readNextRequest (Request.Reset req0)).2.2 = .ok ∧
      (r.readNextRequest (Request.Reset req0)).2.1.header =
        pairs.map (fun p => HeaderCall.Add p.1 p.2) := by
  have hge : ¬ r.currentRequest ≥ r.parsedBody.Requests.length := Nat.not_le.2 hk
  unfold jsonRequestReader.readNextRequest
  simp only [hge, dite_false, hp, addHeaders_pairs]
  cases (r.parsedBody.Requests.get ⟨r.currentRequest, hk⟩).Body.Bytes with
  | some b => exact ⟨rfl, rfl⟩
  | none =>
    cases (r.parsedBody.Requests.get ⟨r.currentRequest, hk⟩).Body.JSON with
    | some j => exact ⟨rfl, rfl⟩
    | none => exact ⟨rfl, rfl⟩

/-- C17 (witness): three header pairs, two of them under the key `x-a`. -/
theorem json_headers_added_witness :
    (jsonRequestReader.readNextRequest
        { parsedBody := { Requests := [duplicateHeadersRequest] }, currentRequest := 0 }
        (Request.Reset {})).2.1.header =
      [.Add "x-a".toList "1".toList, .Add "x-a".toList "2".toList, .Add "x-b".toList "3".toList] :=
  (json_headers_added { parsedBody := { Requests := [duplicateHeadersRequest] }, currentRequest := 0 }
    {} [("x-a".toList, "1".toList), ("x-a".toList, "2".toList), ("x-b".toList, "3".toList)]
    (by decide) (by decide)).2

/-! ## The position of the JSON reader -/

/-- C19: for every successfully initialised JSON reader whose header entries
have at least two strings each, and every number k of calls made so far:
the position is at most the number of entries before the next call; that call
does not panic; the reader's entry is looked up exactly when the position is
below the number of entries, which is when the call succeeds, and then the
position goes up by one; otherwise the call returns `io.EOF` and the reader
stays as it is. -/
theorem json_reader_in_range (env : Env) (body : Str) (r0 : jsonRequestReader)
    (bufs : Nat → Request) (hinit : jsonRequestReader.init env body = .ok r0)
    (hh : ∀ e ∈ r0.parsedBody.Requests, ∀ h ∈ e.Headers, 2 ≤ h.length) (k : Nat) :
    (readerAfter r0 bufs k).parsedBody = r0.parsedBody ∧
      (readerAfter r0 bufs k).currentRequest ≤ r0.parsedBody.Requests.length ∧
      (readerAfter r0 bufs (k + 1)).currentRequest ≤ r0.parsedBody.Requests.length ∧
      ((readerAfter r0 bufs k).readNextRequest (bufs k)).2.2 ≠ .panicked ∧
      ((readerAfter r0 bufs k).currentRequest < r0.parsedBody.Requests.length →
        ((readerAfter r0 bufs k).readNextRequest (bufs k)).2.2 = .ok ∧
          (readerAfter r0 bufs (k + 1)).currentRequest =
            (readerAfter r0 bufs k).currentRequest + 1) ∧
      (¬ (readerAfter r0 bufs k).currentRequest < r0.parsedBody.Requests.length →
        ((readerAfter r0 bufs k).readNextRequest (bufs k)).2.2 = .failed .EOF ∧
          readerAfter r0 bufs (k + 1) = readerAfter r0 bufs k) := by
  have hr0 : r0 = { parsedBody := r0.parsedBody, currentRequest := 0 } := by
    unfold jsonRequestReader.init at hinit
    cases hd : env.decode body with
    | error e => simp [hd] at hinit
    | ok doc =>
      simp only [hd, Except.ok.injEq] at hinit
      subst hinit
      rfl
  have hafter : ∀ n, readerAfter r0 bufs n =
      { parsedBody := r0.parsedBody, currentRequest := min n r0.parsedBody.Requests.length } := by
    intro n
    conv_lhs => rw [hr0]
    rw [readerAfter_eq]
  have hok : (readerAfter r0 bufs k).currentRequest < r0.parsedBody.Requests.length →
      ((readerAfter r0 bufs k).readNextRequest (bufs k)).2.2 = .ok ∧
        (readerAfter r0 bufs (k + 1)).currentRequest =
          (readerAfter r0 bufs k).currentRequest + 1 := by
    intro hlt
    rw [hafter (k + 1), hafter k] at *
    simp only at hlt
    have hkl : k < r0.parsedBody.Requests.length := by
      rcases Nat.lt_or_ge k r0.parsedBody.Requests.length with h1 | h1
      · exact h1
      · rw [Nat.min_eq_right h1] at hlt
        exact absurd hlt (Nat.lt_irrefl _)
    have hrd := json_read_entry
      { parsedBody := r0.parsedBody, currentRequest := min k r0.parsedBody.Requests.length }
      (bufs k) hlt (hh _ (List.get_mem _ _ _))
    refine ⟨hrd.2.1, ?_⟩
    simp only [Nat.min_eq_left (Nat.le_of_lt hkl), Nat.min_eq_left hkl]
  have heof : ¬ (readerAfter r0 bufs k).currentRequest < r0.parsedBody.Requests.length →
      ((readerAfter r0 bufs k).readNextRequest (bufs k)).2.2 = .failed .EOF ∧
        readerAfter r0 bufs (k + 1) = readerAfter r0 bufs k := by
    intro hge
    have hle : (readerAfter r0 bufs k).parsedBody.Requests.length ≤
        (readerAfter r0 bufs k).currentRequest := by
      rw [hafter k] at hge ⊢
      exact Nat.not_lt.1 hge
    have hrd := json_read_at_end (readerAfter r0 bufs k) (bufs k) hle
    refine ⟨by rw [hrd], ?_⟩
    show ((readerAfter r0 bufs k).readNextRequest (bufs k)).1 = readerAfter r0 bufs k
    rw [hrd]
  refine ⟨by rw [hafter k], ?_, ?_, ?_, hok, heof⟩
  · rw [hafter k]
    exact Nat.min_le_right _ _
  · rw [hafter (k + 1)]
    exact Nat.min_le_right _ _
  · by_cases hlt : (readerAfter r0 bufs k).currentRequest < r0.parsedBody.Requests.length
    · rw [(hok hlt).1]
      intro hx
      cases hx
    · rw [(heof hlt).1]
      intro hx
      cases hx

/-- C19 (witness): the envelope of two sub-requests after one call. -/
theorem json_reader_in_range_witness :
    ((readerAfter { parsedBody := twoRequests, currentRequest := 0 } (fun _ => {}) 1).readNextRequest
        {}).2.2 ≠ .panicked ∧
      (readerAfter { parsedBody := twoRequests, currentRequest := 0 } (fun _ => {}) 2).currentRequest
        ≤ 2 :=
  have h := json_reader_in_range (sampleEnv (.ok twoRequests) noParts refusing) []
    { parsedBody := twoRequests, currentRequest := 0 } (fun _ => {}) (by decide) (by decide) 1
  ⟨h.2.2.2.1, h.2.2.1⟩

/-! ## The position counter of the JSON writer -/

theorem dispatch_json_writer (env : Env) (b : Batch) (rr1 : requestReader) (req : Request)
    (w : jsonResponseWriter) (hw : b.resWriter = .json w) :
    (dispatch env b rr1 req).1.resWriter = .json w := by
  unfold dispatch
  rw [hw]
  cases env.client b.sent.length req with
  | error err =>
    simp only [responseWriter.WriteNextError]
    rcases hc : w.WriteNextError env err b.ctx with ⟨ctx1, e⟩
    cases e <;> rfl
  | ok res =>
    simp only [responseWriter.WriteNextResponse]
    rcases hc : w.WriteNextResponse env res b.ctx with ⟨w1, ctx1, e⟩
    cases e <;> rfl

theorem handleLoop_json_writer (env : Env) (fuel : Nat) (b : Batch) (w : jsonResponseWriter)
    (hw : b.resWriter = .json w) : (handleLoop env fuel b).1.resWriter = .json w := by
  induction fuel generalizing b with
  | zero => exact hw
  | succ fuel ih =>
    unfold handleLoop
    rcases hr : b.rr.readNextRequest env.canon (Request.Reset {}) with ⟨rr1, req, st⟩
    cases st with
    | failed err => cases err <;> exact hw
    | panicked => exact hw
    | ok =>
      simp only []
      have hd := dispatch_json_writer env b rr1 req w hw
      rcases hdis : dispatch env b rr1 req with ⟨b1, ex⟩
      rw [hdis] at hd
      cases ex with
      | some ex => exact hd
      | none => exact ih b1 hd

/-- C18: in a batch with the JSON writer, the writer the handler holds has
`responseNum` 0 and `numResponses` the number of entries when it is opened,
and it is this same writer before every iteration of the loop and after every
call on it.  So the test for the separator in `WriteNextResponse` and
`WriteNextError` is `2 ≤ numResponses` at every call; and, with a body writer
that does not fail, a call whose element marshals to `bts` appends `bts`
followed by a comma if and only if `numResponses` is at least 2. -/
theorem json_writer_position_fixed (env : Env) (ctx : RequestCtx) (b0 : Batch)
    (w : jsonResponseWriter) (hop : opened env ctx = some b0) (hjson : b0.resWriter = .json w) :
    w.responseNum = 0 ∧
      (∃ r, b0.rr = .json r ∧ w.numResponses = (r.parsedBody.Requests.length : Int)) ∧
      (∀ fuel, (handleLoop env fuel b0).1.resWriter = .json w) ∧
      (∀ (b : Batch) (rr1 : requestReader) (req : Request), b.resWriter = .json w →
        (dispatch env b rr1 req).1.resWriter = .json w) ∧
      (∀ c, w.writeComma env c = if 2 ≤ w.numResponses then c.Write env comma else (c, none)) ∧
      ((∀ n, env.writeFault n = none) →
        (∀ c err bts, env.marshal (jsonErrorOf err) = .ok bts →
          (w.WriteNextError env err c).2 = none ∧
            (w.WriteNextError env err c).1.body =
              c.body ++ bts ++ (if 2 ≤ w.numResponses then comma else [])) ∧
        (∀ c res bts, env.marshal (jsonResponseOf res) = .ok bts →
          (w.WriteNextResponse env res c).2.2 = none ∧
            (w.WriteNextResponse env res c).2.1.body =
              c.body ++ bts ++ (if 2 ≤ w.numResponses then comma else []))) := by
  obtain ⟨h0, hn⟩ := opened_json_writer env ctx b0 w hop hjson
  refine ⟨h0, hn, fun fuel => handleLoop_json_writer env fuel b0 w hjson,
    fun b rr1 req hb => dispatch_json_writer env b rr1 req w hb,
    fun c => writeComma_at_zero env w c h0, ?_⟩
  intro hw
  exact ⟨fun c err bts hm => json_WriteNextError_body env hw w c err bts h0 hm,
    fun c res bts hm => json_WriteNextResponse_body env hw w c res bts h0 hm⟩

/-- C18 (witness): the JSON batch of three sub-requests: the writer has
`numResponses` 3, and the error element is followed by a comma. -/
theorem json_writer_position_fixed_witness :
    (jsonResponseWriter.WriteNextError (sampleEnv (.ok threeRequests) noParts secondRefused)
        { numResponses := 3, responseNum := 0 } "refused".toList jsonCtx).1.body =
      "\x7b\x22error\x22:\x7b\x22detail\x22:\x22refused\x22\x7d\x7d,".toList :=
  have h := json_writer_position_fixed (sampleEnv (.ok threeRequests) noParts secondRefused) jsonCtx
    { rr := .json { parsedBody := threeRequests, currentRequest := 0 },
      resWriter := .json { numResponses := 3, responseNum := 0 },
      ctx := { jsonCtx with contentType := applicationJson, body := jsonHead, writes := 1 },
      sent := [], calls := [.Open] }
    { numResponses := 3, responseNum := 0 } (by decide) rfl
  ((h.2.2.2.2.2 (fun _ => rfl)).1 jsonCtx "refused".toList _ rfl).2.trans (by decide)

/-! ## The response writers only append to the body -/

theorem Grows_refl (a : RequestCtx) : Grows a a := ⟨[], (List.append_nil _).symm⟩

theorem Grows_trans {a b c : RequestCtx} (h1 : Grows a b) (h2 : Grows b c) : Grows a c := by
  obtain ⟨r1, e1⟩ := h1
  obtain ⟨r2, e2⟩ := h2
  exact ⟨r1 ++ r2, by rw [e2, e1, List.append_assoc]⟩

theorem Write_grows (env : Env) (ctx : RequestCtx) (p : Str) : Grows ctx (ctx.Write env p).1 := by
  unfold RequestCtx.Write
  split
  · exact ⟨[], (List.append_nil _).symm⟩
  · exact ⟨p, rfl⟩

theorem writeComma_grows (env : Env) (w : jsonResponseWriter) (ctx : RequestCtx) :
    Grows ctx (w.writeComma env ctx).1 := by
  unfold jsonResponseWriter.writeComma
  split
  · exact Write_grows env ctx comma
  · exact Grows_refl ctx

theorem json_WriteNextResponse_grows (env : Env) (w : jsonResponseWriter) (res : Response)
    (ctx : RequestCtx) : Grows ctx (w.WriteNextResponse env res ctx).2.1 := by
  unfold jsonResponseWriter.WriteNextResponse
  cases env.marshal (jsonResponseOf res) with
  | error e => exact Grows_refl ctx
  | ok bts =>
    have h1 := Write_grows env ctx bts
    rcases hw : ctx.Write env bts with ⟨ctx1, e1⟩
    rw [hw] at h1
    simp only [hw]
    cases e1 with
    | some e => exact h1
    | none => exact Grows_trans h1 (writeComma_grows env w ctx1)

theorem json_WriteNextError_grows (env : Env) (w : jsonResponseWriter) (err : Str)
    (ctx : RequestCtx) : Grows ctx (w.WriteNextError env err ctx).1 := by
  unfold jsonResponseWriter.WriteNextError
  cases env.marshal (jsonErrorOf err) with
  | error e => exact Grows_refl ctx
  | ok bts =>
    have h1 := Write_grows env ctx bts
    rcases hw : ctx.Write env bts with ⟨ctx1, e1⟩
    rw [hw] at h1
    simp only [hw]
    cases e1 with
    | some e => exact h1
    | none => exact Grows_trans h1 (writeComma_grows env w ctx1)

theorem CreatePart_grows (env : Env) (mw : multipartWriter) (h : MIMEHeader) (ctx : RequestCtx) :
    Grows ctx (mw.CreatePart env h ctx).2.1 := by
  unfold multipartWriter.CreatePart
  have h1 := Write_grows env ctx (env.partHead mw.boundary mw.lastpart h)
  rcases hw : ctx.Write env (env.partHead mw.boundary mw.lastpart h) with ⟨ctx1, e1⟩
  rw [hw] at h1
  cases e1 <;> exact h1

theorem multipart_WriteNextResponse_grows (env : Env) (w : multipartResponseWriter)
    (res : Response) (ctx : RequestCtx) : Grows ctx (w.WriteNextResponse env res ctx).2.1 := by
  unfold multipartResponseWriter.WriteNextResponse
  have h1 := CreatePart_grows env w.resWriter (mimeHeaderOf env.canon res) ctx
  rcases hw : w.resWriter.CreatePart env (mimeHeaderOf env.canon res) ctx with ⟨mw, ctx1, e1⟩
  rw [hw] at h1
  cases e1 with
  | some e => exact h1
  | none => exact Grows_trans h1 (Write_grows env ctx1 res.body)

theorem multipart_WriteNextError_grows (env : Env) (w : multipartResponseWriter)
    (err : Str) (ctx : RequestCtx) : Grows ctx (w.WriteNextError env err ctx).2.1 := by
  unfold multipartResponseWriter.WriteNextError
  have h1 := CreatePart_grows env w.resWriter (MIMEHeader.Set env.canon [] "x-mani-error".toList err) ctx
  rcases hw : w.resWriter.CreatePart env (MIMEHeader.Set env.canon [] "x-mani-error".toList err) ctx
    with ⟨mw, ctx1, e1⟩
  rw [hw] at h1
  cases e1 with
  | some e => exact h1
  | none => exact Grows_trans h1 (Write_grows env ctx1 err)

theorem WriteNextResponse_grows (env : Env) (rw : responseWriter) (res : Response)
    (ctx : RequestCtx) : Grows ctx (rw.WriteNextResponse env res ctx).2.1 := by
  cases rw with
  | multipart w => exact multipart_WriteNextResponse_grows env w res ctx
  | json w => exact json_WriteNextResponse_grows env w res ctx

theorem WriteNextError_grows (env : Env) (rw : responseWriter) (err : Str)
    (ctx : RequestCtx) : Grows ctx (rw.WriteNextError env err ctx).2.1 := by
  cases rw with
  | multipart w => exact multipart_WriteNextError_grows env w err ctx
  | json w => exact json_WriteNextError_grows env w err ctx

/-- An iteration after which the loop goes on has only appended to the body. -/
theorem dispatch_grows (env : Env) (b : Batch) (rr1 : requestReader) (req : Request)
    (h : (dispatch env b rr1 req).2 = none) : Grows b.ctx (dispatch env b rr1 req).1.ctx := by
  unfold dispatch at h ⊢
  cases hcl : env.client b.sent.length req with
  | error err =>
    have h1 := WriteNextError_grows env b.resWriter err b.ctx
    rcases hw : b.resWriter.WriteNextError env err b.ctx with ⟨w1, ctx1, e⟩
    rw [hw] at h1
    simp only [hcl, hw] at h ⊢
    cases e with
    | none => exact h1
    | some e => simp at h
  | ok res =>
    have h1 := WriteNextResponse_grows env b.resWriter res b.ctx
    rcases hw : b.resWriter.WriteNextResponse env res b.ctx with ⟨w1, ctx1, e⟩
    rw [hw] at h1
    simp only [hcl, hw] at h ⊢
    cases e with
    | none => exact h1
    | some e => simp at h

/-! ## Panics -/

theorem multipart_read_not_panicked (canon : Str → Str) (r : multipartRequestReader)
    (req : Request) : (r.readNextRequest canon req).2.2 ≠ .panicked := by
  unfold multipartRequestReader.readNextRequest
  split
  · simp
  · simp only
    split
    · simp
    · split
      · simp
      · split <;> simp

/-- Only the JSON reader panics, and a read leaves a reader of the same
kind. -/
theorem read_kind (canon : Str → Str) (rr : requestReader) (req : Request) :
    ((rr.readNextRequest canon req).2.2 = .panicked → ∃ r, rr = .json r) ∧
      ((∃ r1, (rr.readNextRequest canon req).1 = .json r1) → ∃ r, rr = .json r) := by
  cases rr with
  | json r => exact ⟨fun _ => ⟨r, rfl⟩, fun _ => ⟨r, rfl⟩⟩
  | multipart r =>
    have hnp := multipart_read_not_panicked canon r req
    rcases hr : r.readNextRequest canon req with ⟨r1, req1, st⟩
    rw [hr] at hnp
    simp only [requestReader.readNextRequest, hr]
    constructor
    · intro h
      exact absurd h hnp
    · rintro ⟨r2, h2⟩
      cases h2

/-- When the loop is left by a panic, the reader is a JSON reader and the body
is the one at the start of the loop with more bytes after it. -/
theorem handleLoop_recovered (env : Env) (fuel : Nat) (b : Batch)
    (h : (handleLoop env fuel b).2 = some .recovered) :
    Grows b.ctx (handleLoop env fuel b).1.ctx ∧ ∃ r, b.rr = .json r := by
  induction fuel generalizing b with
  | zero => simp [handleLoop] at h
  | succ fuel ih =>
    unfold handleLoop at h ⊢
    have hkind := read_kind env.canon b.rr (Request.Reset {})
    rcases hr : b.rr.readNextRequest env.canon (Request.Reset {}) with ⟨rr1, req, st⟩
    rw [hr] at h hkind
    cases st with
    | failed err => cases err <;> simp at h
    | panicked => exact ⟨Grows_refl _, hkind.1 rfl⟩
    | ok =>
      simp only [] at h ⊢
      have hg := dispatch_grows env b rr1 req
      have hrr := dispatch_rr env b rr1 req
      have hd := dispatch_head env b rr1 req
      rcases hdis : dispatch env b rr1 req with ⟨b1, ex⟩
      rw [hdis] at h hg hrr hd
      cases ex with
      | some ex =>
        simp only [Option.some.injEq] at h
        subst h
        rcases hd with ⟨h1 | h1, _⟩ | ⟨h1, _, _⟩ <;> cases h1
      | none =>
        simp only [] at h ⊢
        obtain ⟨hgrow, r, hr1⟩ := ih b1 h
        simp only at hrr
        refine ⟨Grows_trans (hg rfl) hgrow, hkind.2 ⟨r, ?_⟩⟩
        rw [← hrr]
        exact hr1

/-- The batch opened over a JSON reader: `Open` has written the head of the
envelope and the content type is `application/json`. -/
theorem opened_json_body (env : Env) (ctx : RequestCtx) (b0 : Batch) (r : jsonRequestReader)
    (hop : opened env ctx = some b0) (hr : b0.rr = .json r) :
    b0.ctx.body = ctx.body ++ jsonHead ∧ b0.ctx.contentType = applicationJson := by
  unfold opened at hop
  cases hp : parseRequest env ctx with
  | error e => simp [hp] at hop
  | ok p =>
    obtain ⟨rr, resType⟩ := p
    simp only [hp] at hop
    rcases parseRequest_ok env ctx rr resType hp with ⟨_, rfl, r1, rfl⟩ | ⟨_, _, rfl, r1, rfl⟩
    · simp only [selectWriter] at hop
      rcases ho : responseWriter.Open env
          (.multipart { resWriter := { boundary := env.boundary, lastpart := false } })
          (ctx.SetContentType ("multipart/mixed; boundary=".toList ++ env.boundary)) with ⟨ctx2, e⟩
      rw [ho] at hop
      cases e with
      | some e => simp at hop
      | none =>
        simp only [Option.some.injEq] at hop
        subst hop
        cases hr
    · simp only [selectWriter, responseWriter.Open, jsonResponseWriter.Open] at hop
      have hn := Write_none env (ctx.SetContentType applicationJson) jsonHead
      have hh := Write_head env (ctx.SetContentType applicationJson) jsonHead
      rcases ho : (ctx.SetContentType applicationJson).Write env jsonHead with ⟨ctx2, e⟩
      rw [ho] at hop hn hh
      cases e with
      | some e => simp at hop
      | none =>
        simp only [Option.some.injEq] at hop
        subst hop
        exact ⟨hn rfl, hh.2.1.symm⟩

/-- Before the writer is open the handler ends only by a failed parse or a
failed `Open`. -/
theorem HandleMani_not_opened (env : Env) (ctx : RequestCtx) (ho : opened env ctx = none) :
    (HandleMani env ctx).exit = .parseFailed ∨ (HandleMani env ctx).exit = .openFailed := by
  unfold opened at ho
  unfold HandleMani
  cases hp : parseRequest env ctx with
  | error e => exact Or.inl rfl
  | ok p =>
    obtain ⟨rr, resType⟩ := p
    simp only [hp] at ho ⊢
    have hsel : ∃ ctx1 w, selectWriter env ctx rr resType = (ctx1, some w) := by
      rcases parseRequest_ok env ctx rr resType hp with ⟨_, rfl, r, rfl⟩ | ⟨_, _, rfl, r, rfl⟩
      · exact ⟨_, _, rfl⟩
      · exact ⟨_, _, rfl⟩
    obtain ⟨ctx1, w, hs⟩ := hsel
    simp only [hs] at ho ⊢
    rcases hopen : w.Open env ctx1 with ⟨ctx2, e⟩
    simp only [hopen] at ho ⊢
    cases e with
    | some e => exact Or.inr rfl
    | none => simp at ho

/-- C14 (counterexample): a JSON envelope whose second sub-request has a header
entry of one string.  The first sub-request is answered and written, the read
of the second panics, and the response has status 500 and a body that is not
empty: the opened envelope with its first element. -/
theorem panic_leaves_body :
    (HandleMani (sampleEnv (.ok secondShortHeader) noParts plainUpstream) jsonCtx).exit =
        .recovered ∧
      (HandleMani (sampleEnv (.ok secondShortHeader) noParts plainUpstream) jsonCtx).ctx.statusCode =
        500 ∧
      (HandleMani (sampleEnv (.ok secondShortHeader) noParts plainUpstream) jsonCtx).ctx.body ≠ [] ∧
      (HandleMani (sampleEnv (.ok secondShortHeader) noParts plainUpstream) jsonCtx).ctx.body =
        jsonHead ++ ("\x7b\x22response\x22:\x7b\x22statusCode\x22:200,\x22headers\x22:" ++
          "[[\x22Content-Type\x22,\x22text/plain\x22]],\x22body\x22:\x7b\x22bytes\x22:\x22aGk=\x22" ++
          "\x7d\x7d\x7d,").toList := by
  decide

/-- C14 (amended): for every inbound request during whose handling a panic
occurs (in the handler as modelled: in a read of the JSON reader, after the
envelope has been opened), the response has status code 500 and content type
`application/json`, and its body is not cleared: it is the body at entry, the
head of the envelope `\x7b"responses":[` and, in order, the elements written for
the sub-requests dispatched before the panic, nothing else. -/
theorem panic_response (env : Env) (ctx : RequestCtx)
    (h : (HandleMani env ctx).exit = .recovered) :
    (HandleMani env ctx).ctx.statusCode = 500 ∧
      (HandleMani env ctx).ctx.contentType = applicationJson ∧
      ∃ r : jsonRequestReader, parseRequest env ctx = .ok (.json r, .responseTypeJson) ∧
        (HandleMani env ctx).ctx.body =
          ctx.body ++ jsonHead ++
            ((responseWriter.json
                { numResponses := (r.parsedBody.Requests.length : Int), responseNum := 0 }).elements
              env (outcomes env 0 (HandleMani env ctx).sent)).flatten := by
  cases ho : opened env ctx with
  | none =>
    rcases HandleMani_not_opened env ctx ho with h1 | h1 <;> rw [h1] at h <;> cases h
  | some b0 =>
    have hcty := HandleMani_contentType_of_opened env ctx b0 ho
    obtain ⟨hs0, -, -⟩ := opened_init env ctx b0 ho
    rw [HandleMani_of_opened env ctx b0 ho] at h hcty ⊢
    have hrec := handleLoop_recovered env (b0.rr.remaining + 1) b0
    have hle := handleLoop_elements env (b0.rr.remaining + 1) b0
    rcases hl : handleLoop env (b0.rr.remaining + 1) b0 with ⟨b, ex⟩
    rw [hl] at h hrec hle hcty
    obtain ⟨-, fnone, fsome⟩ := finish_spec env b ex
    cases ex with
    | none =>
      rcases (fnone rfl).1 with h1 | h1 <;> rw [h1] at h <;> cases h
    | some x =>
      have hx := (fsome x rfl).1
      rw [h] at hx
      subst hx
      obtain ⟨-, r, hr⟩ := hrec rfl
      obtain ⟨new, hs, hb, -⟩ := hle (Or.inr rfl)
      obtain ⟨hbody, hct⟩ := opened_json_body env ctx b0 r ho hr
      obtain ⟨hparse, hwr⟩ := opened_json env ctx b0 r ho hr
      simp only [hs0, List.nil_append, List.length_nil] at hs hb
      refine ⟨rfl, hcty.trans hct, r, hparse, ?_⟩
      show b.ctx.body = ctx.body ++ jsonHead ++
        ((responseWriter.json
            { numResponses := (r.parsedBody.Requests.length : Int), responseNum := 0 }).elements
          env (outcomes env 0 b.sent)).flatten
      rw [hb, hbody, hwr, hs]

/-- C14 (witness): the envelope whose second sub-request has a header entry of
one string: status 500, content type `application/json`. -/
theorem panic_response_witness :
    (HandleMani (sampleEnv (.ok secondShortHeader) noParts plainUpstream) jsonCtx).ctx.statusCode =
        500 ∧
      (HandleMani (sampleEnv (.ok secondShortHeader) noParts plainUpstream) jsonCtx).ctx.contentType =
        applicationJson :=
  have h := panic_response (sampleEnv (.ok secondShortHeader) noParts plainUpstream) jsonCtx
    (by decide)
  ⟨h.1, h.2.1⟩

/-! ## A multipart part without method header -/

theorem multipart_read_wf (canon : Str → Str) (r : multipartRequestReader) (q : Part)
    (rest : List Part) (req : Request) (hp : r.mpr.parts = q :: rest) (hq : q.WellFormed canon) :
    ∃ req1, (requestReader.multipart r).readNextRequest canon req =
      (.multipart { mpr := { r.mpr with parts := rest } }, req1, .ok) := by
  obtain ⟨hu, hm, hok⟩ := hq
  obtain ⟨body, hb⟩ : ∃ body, q.body = .ok body := by
    cases hqb : q.body with
    | error e => simp [hqb, Except.toBool] at hok
    | ok body => exact ⟨body, rfl⟩
  simp only [requestReader.readNextRequest, multipartRequestReader.readNextRequest, hp, hu,
    hm, hb, if_false]
  exact ⟨_, rfl⟩

theorem multipart_read_no_method (canon : Str → Str) (r : multipartRequestReader) (p : Part)
    (post : List Part) (req : Request) (hp : r.mpr.parts = p :: post)
    (hu : MIMEHeader.Get canon p.Header urlHeader ≠ [])
    (hm : MIMEHeader.Get canon (MIMEHeader.Del canon p.Header urlHeader) methodHeader = []) :
    (requestReader.multipart r).readNextRequest canon req =
      (.multipart { mpr := { r.mpr with parts := post } }, req,
        .failed (.other "part missing method header".toList)) := by
  simp only [requestReader.readNextRequest, multipartRequestReader.readNextRequest, hp, hu,
    hm, if_false, if_true]

/-- With a body writer that does not fail, an iteration over the multipart
writer goes on, and the writer stays a multipart writer. -/
theorem dispatch_multipart (env : Env) (hw : ∀ n, env.writeFault n = none) (b : Batch)
    (rr1 : requestReader) (req : Request) (w : multipartResponseWriter)
    (hwr : b.resWriter = .multipart w) :
    (dispatch env b rr1 req).2 = none ∧ ∃ w1, (dispatch env b rr1 req).1.resWriter = .multipart w1 := by
  unfold dispatch
  rw [hwr]
  cases env.client b.sent.length req with
  | error err =>
    simp only [responseWriter.WriteNextError, multipartResponseWriter.WriteNextError,
      multipartWriter.CreatePart, Write_eq env hw]
    exact ⟨trivial, _, rfl⟩
  | ok res =>
    simp only [responseWriter.WriteNextResponse, multipartResponseWriter.WriteNextResponse,
      multipartWriter.CreatePart, Write_eq env hw]
    exact ⟨trivial, _, rfl⟩

/-- The loop over a multipart stream of well-formed parts followed by a part
that names a URL and no method: the parts before it are dispatched, and the
handler returns with status 400 and the message of the reader as body. -/
theorem handleLoop_missing_method (env : Env) (hw : ∀ n, env.writeFault n = none) (p : Part)
    (post : List Part) (hu : MIMEHeader.Get env.canon p.Header urlHeader ≠ [])
    (hm : MIMEHeader.Get env.canon (MIMEHeader.Del env.canon p.Header urlHeader) methodHeader = [])
    (pre : List Part) (fuel : Nat) (b : Batch) (r : multipartRequestReader)
    (w : multipartResponseWriter) (hr : b.rr = .multipart r) (hparts : r.mpr.parts = pre ++ p :: post)
    (hwr : b.resWriter = .multipart w) (hpre : ∀ q ∈ pre, q.WellFormed env.canon)
    (hf : pre.length < fuel) :
    (handleLoop env fuel b).2 = some .readFailed ∧
      (handleLoop env fuel b).1.ctx.statusCode = 400 ∧
      (handleLoop env fuel b).1.ctx.body =
        "Failed to read multipart message: ".toList ++ "part missing method header".toList ∧
      (handleLoop env fuel b).1.sent.length = b.sent.length + pre.length := by
  induction pre generalizing fuel b r w with
  | nil =>
    cases fuel with
    | zero => cases hf
    | succ fuel =>
      unfold handleLoop
      rw [hr, multipart_read_no_method env.canon r p post _ (by simpa using hparts) hu hm]
      exact ⟨rfl, rfl, rfl, rfl⟩
  | cons q pre ih =>
    cases fuel with
    | zero => cases hf
    | succ fuel =>
      unfold handleLoop
      obtain ⟨req1, hread⟩ := multipart_read_wf env.canon r q (pre ++ p :: post) (Request.Reset {})
        (by simpa using hparts) (hpre q (List.mem_cons_self _ _))
      rw [hr, hread]
      simp only []
      have hd := dispatch_multipart env hw b
        (.multipart { mpr := { r.mpr with parts := pre ++ p :: post } }) req1 w hwr
      have hrr := dispatch_rr env b
        (.multipart { mpr := { r.mpr with parts := pre ++ p :: post } }) req1
      have hsent := dispatch_sent env b
        (.multipart { mpr := { r.mpr with parts := pre ++ p :: post } }) req1
      rcases hdis : dispatch env b
        (.multipart { mpr := { r.mpr with parts := pre ++ p :: post } }) req1 with ⟨b1, ex⟩
      rw [hdis] at hd hrr hsent
      obtain ⟨hex, w1, hw1⟩ := hd
      simp only at hex hw1 hrr hsent
      subst hex
      simp only []
      have := ih fuel b1 { mpr := { r.mpr with parts := pre ++ p :: post } } w1 hrr rfl hw1
        (fun x hx => hpre x (List.mem_cons_of_mem _ hx)) (by simpa using hf)
      rw [hsent, List.length_append, List.length_singleton] at this
      refine ⟨this.1, this.2.1, this.2.2.1, ?_⟩
      rw [this.2.2.2, List.length_cons]
      omega

/-- What the batch opened for a multipart request looks like. -/
theorem opened_multipart (env : Env) (ctx : RequestCtx) (r : multipartRequestReader)
    (ty : responseType) (hp : parseRequest env ctx = .ok (.multipart r, ty)) :
    ∃ b0, opened env ctx = some b0 ∧ b0.rr = .multipart r ∧ (∃ w, b0.resWriter = .multipart w) ∧
      b0.sent = [] ∧ b0.ctx.contentType = "multipart/mixed; boundary=".toList ++ env.boundary := by
  rcases parseRequest_ok env ctx _ ty hp with ⟨_, rfl, _⟩ | ⟨_, _, _, r1, hr⟩
  · refine ⟨{ rr := .multipart r,
              resWriter := .multipart { resWriter := { boundary := env.boundary, lastpart := false } },
              ctx := ctx.SetContentType ("multipart/mixed; boundary=".toList ++ env.boundary),
              sent := [], calls := [.Open] }, ?_, rfl, ⟨_, rfl⟩, rfl, rfl⟩
    unfold opened
    simp only [hp, selectWriter, responseWriter.Open, multipartResponseWriter.Open]
  · cases hr

/-- C13 (counterexample): a batch whose only part carries `x-mani-url`, with an
empty value, and no `x-mani-method`: the response has status 400 and the body
names the URL header, not the method header.  And a batch of a well-formed
part followed by a part without method header in which the first write on the
response body fails: the response has status 500. -/
theorem missing_method_with_empty_url :
    emptyUrlNoMethodPart.Header.lookup (canonKey urlHeader) = some [[]] ∧
      emptyUrlNoMethodPart.Header.lookup (canonKey methodHeader) = none ∧
      (HandleMani (sampleEnv (.ok oneRequest) { parts := [emptyUrlNoMethodPart], final := .EOF }
        plainUpstream) multipartCtx).ctx.statusCode = 400 ∧
      (HandleMani (sampleEnv (.ok oneRequest) { parts := [emptyUrlNoMethodPart], final := .EOF }
        plainUpstream) multipartCtx).ctx.body =
        "Failed to read multipart message: part missing url header".toList ∧
      ¬ List.IsInfix "part missing method header".toList
        (HandleMani (sampleEnv (.ok oneRequest) { parts := [emptyUrlNoMethodPart], final := .EOF }
          plainUpstream) multipartCtx).ctx.body ∧
      (HandleMani (faultyEnv 0 (.ok oneRequest) { parts := [goodPart, noMethodPart], final := .EOF }
        plainUpstream) multipartCtx).exit = .writeResponseFailed ∧
      (HandleMani (faultyEnv 0 (.ok oneRequest) { parts := [goodPart, noMethodPart], final := .EOF }
        plainUpstream) multipartCtx).ctx.statusCode = 500 := by
  decide

/-- C13 (amended): in a multipart batch in which the part at position k carries
`x-mani-url` with a non-empty value and no `x-mani-method` value, the parts
before it being well formed and no write on the response body failing, the
batch aborts at part k: the sub-requests handed to the outbound client are
exactly the k before it, the status code of the response is 400, and its body
is the text `Failed to read multipart message: part missing method header`,
which contains `part missing method header`; the content type of the response
stays the one of the envelope. -/
theorem multipart_missing_method_aborts (env : Env) (ctx : RequestCtx)
    (r : multipartRequestReader) (ty : responseType) (pre post : List Part) (p : Part)
    (hparse : parseRequest env ctx = .ok (.multipart r, ty))
    (hparts : r.mpr.parts = pre ++ p :: post)
    (hpre : ∀ q ∈ pre, q.WellFormed env.canon)
    (hc : env.canon urlHeader ≠ env.canon methodHeader)
    (hu : MIMEHeader.Get env.canon p.Header urlHeader ≠ [])
    (hm : MIMEHeader.Get env.canon p.Header methodHeader = [])
    (hw : ∀ n, env.writeFault n = none) :
    (HandleMani env ctx).exit = .readFailed ∧
      (HandleMani env ctx).sent =
        (requestsOf env.canon (r.mpr.parts.length + 1) (.multipart r)).take pre.length ∧
      (HandleMani env ctx).sent.length = pre.length ∧
      (HandleMani env ctx).ctx.statusCode = 400 ∧
      (HandleMani env ctx).ctx.body =
        "Failed to read multipart message: ".toList ++ "part missing method header".toList ∧
      List.IsInfix "part missing method header".toList (HandleMani env ctx).ctx.body ∧
      (HandleMani env ctx).ctx.contentType = "multipart/mixed; boundary=".toList ++ env.boundary := by
  have hm1 : MIMEHeader.Get env.canon (MIMEHeader.Del env.canon p.Header urlHeader) methodHeader
      = [] := by
    rw [Get_Del_ne env.canon p.Header methodHeader urlHeader (fun h => hc h.symm)]
    exact hm
  obtain ⟨b0, hop, hrr, ⟨w, hwr⟩, hsent, hct⟩ := opened_multipart env ctx r ty hparse
  have hrem : b0.rr.remaining = r.mpr.parts.length := by rw [hrr]; rfl
  have hl := handleLoop_missing_method env hw p post hu hm1 pre (b0.rr.remaining + 1) b0 r w hrr
    hparts hwr hpre (by rw [hrem, hparts, List.length_append]; omega)
  have hH := HandleMani_of_opened env ctx b0 hop
  have hcty := HandleMani_contentType_of_opened env ctx b0 hop
  obtain ⟨m, hmle, htake, -⟩ := HandleMani_trace env ctx b0 hop
  rw [hrem, hrr] at hmle htake
  rcases hloop : handleLoop env (b0.rr.remaining + 1) b0 with ⟨b, ex⟩
  rw [hloop] at hl hH
  obtain ⟨hex, hst, hbody, hlen⟩ := hl
  simp only at hex hst hbody hlen
  subst hex
  have hfin : HandleMani env ctx =
      { ctx := b.ctx, sent := b.sent, calls := b.calls, exit := .readFailed } := hH.trans rfl
  have hlen1 : (HandleMani env ctx).sent.length = pre.length := by
    rw [hfin]
    simpa [hsent] using hlen
  have hmk : m = pre.length := by
    have := hlen1
    rw [htake, List.length_take] at this
    omega
  have hb : (HandleMani env ctx).ctx.body =
      "Failed to read multipart message: ".toList ++ "part missing method header".toList := by
    rw [hfin]
    exact hbody
  refine ⟨by rw [hfin], by rw [htake, hmk], hlen1, by rw [hfin]; exact hst, hb, ?_, hcty.trans hct⟩
  rw [hb]
  exact ⟨_, [], by rw [List.append_nil]⟩

/-- C13 (witness): a batch of three parts of which the second has no method
header. -/
theorem multipart_missing_method_aborts_witness :
    (HandleMani (sampleEnv (.ok oneRequest)
        { parts := [goodPart, noMethodPart, goodPart], final := .EOF } plainUpstream)
        multipartCtx).exit = .readFailed ∧
      (HandleMani (sampleEnv (.ok oneRequest)
        { parts := [goodPart, noMethodPart, goodPart], final := .EOF } plainUpstream)
        multipartCtx).sent.length = 1 ∧
      (HandleMani (sampleEnv (.ok oneRequest)
        { parts := [goodPart, noMethodPart, goodPart], final := .EOF } plainUpstream)
        multipartCtx).ctx.statusCode = 400 :=
  have h := multipart_missing_method_aborts
    (sampleEnv (.ok oneRequest) { parts := [goodPart, noMethodPart, goodPart], final := .EOF }
      plainUpstream)
    multipartCtx { mpr := { parts := [goodPart, noMethodPart, goodPart], final := .EOF } }
    .responseTypeMultipart [goodPart] [goodPart] noMethodPart (by decide) rfl (by decide)
    (by decide) (by decide) (by decide) (fun _ => rfl)
  ⟨h.1, h.2.2.1, h.2.2.2.1⟩

/-! ## A failing `Open`, and failing calls in the loop -/

end Mani
